import Mathlib

/-! # The "process" collector (`collector/process_linux.go`)

A shallow embedding of `processCollector.Update`: the aggregation loop that
groups per-process readings by process name, and the metric-building phase
that expands every bucket against the fixed table `visibleStatNames`.

Conventions of the embedding.

* A Go `map[string]V` is an association list with pairwise distinct keys
  (`GoMap V`); a `range` over a map visits its keys in an order that the
  language leaves open, so every `range` takes a `RangeOrder`, a
  rearrangement of the key list.
* The arithmetic of the bucket values is a parameter `F` of the embedding: a
  type with an addition, a zero and a conversion from the unsigned integers
  of the library (the conversions `float64(x)` of lines 66 to 75; the field
  `UserTime` of line 83 is taken at its converted value). The type
  `float64` below is the binary64 arithmetic of Go: round to nearest, ties to
  even, overflow to infinity. The results about `Update` are proved for every
  `F` in which adding zero changes nothing, which covers `float64`; sums are
  taken in the order of the loop. The results on rearranging the pid list,
  which are about exact numbers, are proved for every `F` whose addition is
  also commutative and associative.
* The process library is a record of functions (`ProcessSource`), one per
  library call used by `Update`; every call either yields a value or an error.
* Sending on the channel `ch` appends to the list of emitted metrics; the
  library calls that a pass performs are recorded in order.
* `Namespace` is a constant of the package declared in another file; it is a
  parameter here. The checks that the metrics library runs on a descriptor
  (`MustNewConstMetric` panics on an invalid one) are not part of the model.
-/

namespace Collector

set_option linter.unusedSectionVars false

/-! ## Go maps -/

/-- A Go `map[string]V`: association list, each key at most once. -/
abbrev GoMap (V : Type) := List (String × V)

namespace GoMap

variable {V : Type}

/-- The comma-ok read `v, ok := m[key]`. -/
def lookup : GoMap V → String → Option V
  | [], _ => none
  | (k, v) :: rest, key => if k = key then some v else lookup rest key

/-- The assignment `m[key] = val`. -/
def store : GoMap V → String → V → GoMap V
  | [], key, val => [(key, val)]
  | (k, v) :: rest, key, val =>
    if k = key then (k, val) :: rest else (k, v) :: store rest key val

/-- The keys of the map, in the order of the association list. -/
def keys (m : GoMap V) : List String := m.map Prod.fst

end GoMap

/-- The order in which one `range` statement visits the keys of a map: any
rearrangement of the keys. -/
structure RangeOrder where
  visit : List String → List String
  visit_perm : ∀ l, (visit l).Perm l

/-- The order of the association list itself. -/
def RangeOrder.asStored : RangeOrder := ⟨fun l => l, fun l => List.Perm.refl l⟩

/-- The reverse of the order of the association list. -/
def RangeOrder.reversed : RangeOrder := ⟨List.reverse, List.reverse_perm⟩

/-! ## The type `float64` -/

/-- Number of binary digits of `n`, found by halving at most `fuel` times. -/
def bitLenAux : Nat → Nat → Nat
  | 0, _ => 0
  | fuel + 1, n => if n = 0 then 0 else bitLenAux fuel (n / 2) + 1

/-- Number of binary digits of `n`. -/
def bitLen (n : Nat) : Nat := bitLenAux n n

/-- The values of the Go type `float64` (binary64). A finite value is
`m * 2 ^ e`, kept with `m` odd, and zero is `finite 0 0`; the two zeros of
the format are not told apart (they compare equal in Go), and there is one
not-a-number. -/
inductive float64 where
  | finite (m : Int) (e : Int)
  | inf (neg : Bool)
  | nan
  deriving DecidableEq

namespace float64

/-- The quotient of `n` by `2 ^ shift`, rounded to nearest, ties to even. -/
def roundHalfEven (n shift : Nat) : Nat :=
  let q := n / 2 ^ shift
  let r := n % 2 ^ shift
  let half := 2 ^ (shift - 1)
  if r > half ∨ (r = half ∧ q % 2 = 1) then q + 1 else q

/-- The finite value of magnitude `q * 2 ^ E` with an odd significand. -/
def normalize (neg : Bool) (q : Nat) (E : Int) : float64 :=
  if q = 0 then finite 0 0
  else
    let tz := bitLen (q ^^^ (q - 1)) - 1
    finite (if neg then -((q / 2 ^ tz : Nat) : Int) else ((q / 2 ^ tz : Nat) : Int)) (E + tz)

/-- The `float64` nearest to the number `m * 2 ^ e`: 53 significant binary
digits, no digit below `2 ^ (-1074)`, infinite from `2 ^ 1024` on. -/
def round (m e : Int) : float64 :=
  if m = 0 then finite 0 0
  else
    let n := m.natAbs
    let E : Int := max (e + (bitLen n : Nat) - 53) (-1074)
    let q : Nat := if E ≤ e then n * 2 ^ (e - E).toNat else roundHalfEven n (E - e).toNat
    if q ≠ 0 ∧ ((bitLen q : Nat) : Int) + E > 1024 then inf (decide (m < 0))
    else normalize (decide (m < 0)) q E

/-- The addition of two `float64` values: the exact sum, rounded. -/
def add : float64 → float64 → float64
  | nan, _ => nan
  | _, nan => nan
  | inf a, inf b => if a = b then inf a else nan
  | inf a, finite _ _ => inf a
  | finite _ _, inf b => inf b
  | finite m1 e1, finite m2 e2 =>
    if m1 = 0 ∧ e1 = 0 then finite m2 e2
    else if m2 = 0 ∧ e2 = 0 then finite m1 e1
    else
      let e := min e1 e2
      round (m1 * 2 ^ (e1 - e).toNat + m2 * 2 ^ (e2 - e).toNat) e

/-- The conversion `float64(x)` of an unsigned integer. -/
def ofNat (n : Nat) : float64 := round n 0

instance : AddZeroClass float64 where
  zero := finite 0 0
  add := add
  zero_add := by
    intro a
    show add (finite 0 0) a = a
    cases a <;> simp [add]
  add_zero := by
    intro a
    show add a (finite 0 0) = a
    cases a with
    | finite m e =>
      by_cases h : m = 0 ∧ e = 0
      · simp [add, h.1, h.2]
      · simp [add, h]
    | inf neg => simp [add]
    | nan => simp [add]

instance : NatCast float64 := ⟨ofNat⟩

end float64

/-! ## Data of the collector -/

/-- The table `visibleStatNames`: system name to its subsystem names. -/
def visibleStatNames : GoMap (List String) :=
  [ ("memory", ["used"]),
    ("cpu", ["total", "user", "system"]),
    ("virtualmem", ["peak", "size", "lock", "hwm", "rss", "swap"]) ]

/-- The type `procInfo`, a `map[string]float64`; `F` is the type of the
values. -/
abbrev procInfo (F : Type) := GoMap F

/-- The read `proc[key]` of a `procInfo`: the zero value when the key is absent. -/
def procInfo.index {F : Type} [Zero F] (proc : procInfo F) (key : String) : F :=
  (GoMap.lookup proc key).getD 0

/-- The read `procs[procName][key]`; a missing bucket reads as the empty map. -/
def bucketAt {F : Type} [Zero F] (procs : GoMap (procInfo F)) (procName key : String) : F :=
  procInfo.index ((GoMap.lookup procs procName).getD []) key

/-- The statement `procs[procName][key] += x`. It is only executed after the
bucket of `procName` has been created. -/
def addAt {F : Type} [Add F] [Zero F] (procs : GoMap (procInfo F)) (procName key : String)
    (x : F) : GoMap (procInfo F) :=
  let info := (GoMap.lookup procs procName).getD []
  GoMap.store procs procName (GoMap.store info key (procInfo.index info key + x))

/-! ## The process library -/

abbrev Error := String

abbrev Pid := Int

/-- Result of `proc.MemoryInfo()`; only the field read by `Update`, an
unsigned integer. -/
structure MemoryInfoStat where
  RSS : Nat
  deriving DecidableEq

/-- Result of `proc.VirtualMemoryInfo()`: six unsigned integers. -/
structure VirtualMemoryInfoStat where
  VMPeak : Nat
  VMSize : Nat
  VMLck : Nat
  VMHWM : Nat
  VMRSS : Nat
  VMSwap : Nat
  deriving DecidableEq

/-- Result of `proc.GetStats()`; only the field read by `Update`, taken at the
value of `float64(stats.UserTime)`. -/
structure ProcessStats (F : Type) where
  UserTime : F
  deriving DecidableEq

/-- Result of `proc.Times()`: the fields `User` and `System`, and the value of
the method `Total()`. -/
structure TimesStat (F : Type) where
  User : F
  System : F
  Total : F
  deriving DecidableEq

/-- The calls of the process library used by `Update`. A process handle is
identified with its pid. -/
structure ProcessSource (F : Type) where
  Pids : Except Error (List Pid)
  NewProcess : Pid → Except Error Unit
  Name : Pid → Except Error String
  MemoryInfo : Pid → Except Error MemoryInfoStat
  VirtualMemoryInfo : Pid → Except Error VirtualMemoryInfoStat
  GetStats : Pid → Except Error (ProcessStats F)
  Times : Pid → Except Error (TimesStat F)

/-- One library call performed during a pass. -/
inductive Call where
  | Pids
  | NewProcess (pid : Pid)
  | Name (pid : Pid)
  | MemoryInfo (pid : Pid)
  | VirtualMemoryInfo (pid : Pid)
  | GetStats (pid : Pid)
  | Times (pid : Pid)
  deriving DecidableEq

/-- Whether a call is one of the per-process reads (everything but `Pids`). -/
def Call.perProcess : Call → Bool
  | .Pids => false
  | _ => true

/-! ## Emitted metrics -/

inductive ValueType where
  | CounterValue
  | GaugeValue
  | UntypedValue
  deriving DecidableEq

/-- The arguments handed to `prometheus.NewDesc`. -/
structure Desc where
  fqName : String
  help : String
  variableLabels : List String
  constLabels : List (String × String)
  deriving DecidableEq

/-- The arguments handed to `prometheus.MustNewConstMetric`. -/
structure Metric (F : Type) where
  desc : Desc
  valueType : ValueType
  value : F
  labelValues : List String
  deriving DecidableEq

/-- Modelled from the spec: `prometheus.BuildFQName` is library code outside the
repository. The spec gives the family name as `<namespace>_process_<system>`;
the components are joined by `_`, empty namespace or subsystem are left out,
and an empty name gives the empty string. -/
def BuildFQName (namespace_ subsystem name : String) : String :=
  if name = "" then ""
  else if namespace_ ≠ "" ∧ subsystem ≠ "" then namespace_ ++ "_" ++ subsystem ++ "_" ++ name
  else if namespace_ ≠ "" then namespace_ ++ "_" ++ name
  else if subsystem ≠ "" then subsystem ++ "_" ++ name
  else name

/-- The descriptor built at lines 93-98 for one system. -/
def systemDesc (Namespace system : String) : Desc :=
  { fqName := BuildFQName Namespace "process" system
    help := "Labeled per process cpu and memory information."
    variableLabels := ["name", "type"]
    constLabels := [] }

/-- The metric sent at line 101 for one subsystem `s` of `system`. -/
def constMetric {F : Type} [Zero F] (Namespace : String) (procName : String)
    (proc : procInfo F) (system s : String) : Metric F :=
  { desc := systemDesc Namespace system
    valueType := ValueType.GaugeValue
    value := procInfo.index proc (system ++ "." ++ s)
    labelValues := [procName, s] }

/-! ## `Update`: the aggregation loop -/

section Loop

variable {F : Type} [Add F] [Zero F] [NatCast F]

/-- Lines 61-63: create the bucket of `procName` on first sight. -/
def ensureBucket (procs : GoMap (procInfo F)) (procName : String) : GoMap (procInfo F) :=
  if (GoMap.lookup procs procName).isSome then procs else GoMap.store procs procName []

/-- Lines 65-67. -/
def addMemory (procs : GoMap (procInfo F)) (procName : String)
    (r : Except Error MemoryInfoStat) : GoMap (procInfo F) :=
  match r with
  | .ok memInfo => addAt procs procName "memory.used" (memInfo.RSS : F)
  | .error _ => procs

/-- Lines 69-76. -/
def addVirtualMem (procs : GoMap (procInfo F)) (procName : String)
    (r : Except Error VirtualMemoryInfoStat) : GoMap (procInfo F) :=
  match r with
  | .ok virtualMemInfo =>
    let procs := addAt procs procName "virtualmem.peak" (virtualMemInfo.VMPeak : F)
    let procs := addAt procs procName "virtualmem.size" (virtualMemInfo.VMSize : F)
    let procs := addAt procs procName "virtualmem.lock" (virtualMemInfo.VMLck : F)
    let procs := addAt procs procName "virtualmem.hwm" (virtualMemInfo.VMHWM : F)
    let procs := addAt procs procName "virtualmem.rss" (virtualMemInfo.VMRSS : F)
    addAt procs procName "virtualmem.swap" (virtualMemInfo.VMSwap : F)
  | .error _ => procs

/-- Lines 83-85. -/
def addCpu (procs : GoMap (procInfo F)) (procName : String) (stats : ProcessStats F)
    (timesStat : TimesStat F) : GoMap (procInfo F) :=
  let procs := addAt procs procName "cpu.user" stats.UserTime
  let procs := addAt procs procName "cpu.system" timesStat.System
  addAt procs procName "cpu.total" timesStat.Total

/-- Lines 52-86: the body of the loop over the pids, for one pid. Returns the
new bucket map and the library calls made, in order. -/
def loopBody (src : ProcessSource F) (procs : GoMap (procInfo F)) (pid : Pid) :
    GoMap (procInfo F) × List Call :=
  match src.NewProcess pid with
  | .error _ => (procs, [Call.NewProcess pid])
  | .ok _ =>
    match src.Name pid with
    | .error _ => (procs, [Call.NewProcess pid, Call.Name pid])
    | .ok procName =>
      if procName = "" then (procs, [Call.NewProcess pid, Call.Name pid])
      else
        let procs := ensureBucket procs procName
        let procs := addMemory procs procName (src.MemoryInfo pid)
        let procs := addVirtualMem procs procName (src.VirtualMemoryInfo pid)
        let calls := [Call.NewProcess pid, Call.Name pid, Call.MemoryInfo pid,
          Call.VirtualMemoryInfo pid, Call.GetStats pid]
        match src.GetStats pid with
        | .error _ => (procs, calls)
        | .ok stats =>
          match src.Times pid with
          | .ok timesStat => (addCpu procs procName stats timesStat, calls ++ [Call.Times pid])
          | .error _ => (procs, calls ++ [Call.Times pid])

/-- Lines 51-88: the loop over the pids. -/
def aggregate (src : ProcessSource F) :
    GoMap (procInfo F) → List Call → List Pid → GoMap (procInfo F) × List Call
  | procs, calls, [] => (procs, calls)
  | procs, calls, pid :: rest =>
    aggregate src (loopBody src procs pid).1 (calls ++ (loopBody src procs pid).2) rest

/-! ## `Update`: building the metrics -/

/-- Lines 99-102: the metrics of one system for one bucket. -/
def systemMetrics (Namespace : String) (procName : String) (proc : procInfo F)
    (system : String) : List (Metric F) :=
  ((GoMap.lookup visibleStatNames system).getD []).map
    (constMetric Namespace procName proc system)

/-- Lines 92-103: the metrics of one bucket; `sysOrder` is the order of the
`range` over `visibleStatNames`. -/
def bucketMetrics (Namespace : String) (sysOrder : RangeOrder) (procName : String)
    (proc : procInfo F) : List (Metric F) :=
  (sysOrder.visit (GoMap.keys visibleStatNames)).flatMap
    (systemMetrics Namespace procName proc)

/-- Lines 91-104: `nameOrder` is the order of the `range` over `procs`, and
`sysOrder procName` the order of the inner `range` during the visit of
`procName`. -/
def buildMetrics (Namespace : String) (nameOrder : RangeOrder)
    (sysOrder : String → RangeOrder) (procs : GoMap (procInfo F)) : List (Metric F) :=
  (nameOrder.visit (GoMap.keys procs)).flatMap fun procName =>
    bucketMetrics Namespace (sysOrder procName) procName
      ((GoMap.lookup procs procName).getD [])

/-- What a call of `Update` does: the returned error (`none` for `nil`), the
metrics sent on the channel, and the library calls made. -/
structure UpdateResult (F : Type) where
  err : Option Error
  emitted : List (Metric F)
  calls : List Call

/-- The method `processCollector.Update` (lines 42-107). -/
def Update (Namespace : String) (src : ProcessSource F) (nameOrder : RangeOrder)
    (sysOrder : String → RangeOrder) : UpdateResult F :=
  match src.Pids with
  | .error err => { err := some err, emitted := [], calls := [Call.Pids] }
  | .ok pids =>
    let r := aggregate src [] [Call.Pids] pids
    { err := none, emitted := buildMetrics Namespace nameOrder sysOrder r.1, calls := r.2 }

/-! ## Auxiliary notions used to state the results -/

/-- The bucket name a pid is attributed to (lines 52-59): the name read for
it when the handle and the name are obtained and the name is not empty. -/
def procNameOf (src : ProcessSource F) (pid : Pid) : Option String :=
  match src.NewProcess pid with
  | .error _ => none
  | .ok _ =>
    match src.Name pid with
    | .error _ => none
    | .ok procName => if procName = "" then none else some procName

/-- The bucket map after the loop over `pids`, started from `procs`. -/
def aggregated (src : ProcessSource F) (procs : GoMap (procInfo F)) (pids : List Pid) :
    GoMap (procInfo F) :=
  (aggregate src procs [] pids).1

/-- A metric belongs to the series `(system, s, procName)`: its family name is
the one built for `system` and its label values are `procName` and `s`. -/
def Metric.isSeries (Namespace : String) (m : Metric F) (system s procName : String) : Prop :=
  m.desc.fqName = BuildFQName Namespace "process" system ∧ m.labelValues = [procName, s]

instance (Namespace : String) (m : Metric F) (system s procName : String) :
    Decidable (Metric.isSeries Namespace m system s procName) := by
  unfold Metric.isSeries; infer_instance

/-- The ten `(system, subsystem)` pairs of `visibleStatNames`. -/
def schemaPairs : List (String × String) :=
  (visibleStatNames.flatMap fun e => e.2.map fun s => (e.1, s))

/-- The successful results of the read `read` over the pids attributed to the
bucket `N`, in the order of the pid list. -/
def readingsOf {α : Type} (src : ProcessSource F) (pids : List Pid) (N : String)
    (read : Pid → Except Error α) : List α :=
  pids.filterMap fun pid => if procNameOf src pid = some N then (read pid).toOption else none

/-- The sum of the values `f r` over the list `l`, accumulated from zero in
the order of the list, as `+=` does. -/
def accumulate {α : Type} (f : α → F) (l : List α) : F :=
  l.foldl (fun acc r => acc + f r) 0

/-- The keys outside the "virtualmem" system. -/
def otherKeys : List String := ["memory.used", "cpu.total", "cpu.user", "cpu.system"]

/-- The comma-ok read of `procs[procName][key]`: `none` when the bucket or the
key is absent. -/
def entryAt (procs : GoMap (procInfo F)) (procName key : String) : Option F :=
  (GoMap.lookup procs procName).bind fun info => GoMap.lookup info key

/-- Whether the key `key` is present in the bucket of `procName`. -/
def hasKey (procs : GoMap (procInfo F)) (procName key : String) : Bool :=
  (entryAt procs procName key).isSome

/-- Two bucket maps are equal as Go maps: the same buckets exist, and every
bucket has the same keys with the same values. -/
def sameMap (a b : GoMap (procInfo F)) : Prop :=
  (∀ n, (GoMap.lookup a n).isSome = (GoMap.lookup b n).isSome)
  ∧ ∀ n k, entryAt a n k = entryAt b n k

/-- The ten keys `system + "." + subsystem` derived from `visibleStatNames`. -/
def schemaKeys : List String :=
  schemaPairs.map fun q => q.1 ++ "." ++ q.2

end Loop

/-! ## Concrete libraries used as examples -/

/-- An example library: two processes named "nginx" with resident memory 100
and 50; no virtual-memory read succeeds, and the stats read of the second
process fails. -/
def twoNginx : ProcessSource float64 :=
  { Pids := .ok [1, 2]
    NewProcess := fun _ => .ok ()
    Name := fun _ => .ok "nginx"
    MemoryInfo := fun pid => if pid = 1 then .ok ⟨100⟩ else .ok ⟨50⟩
    VirtualMemoryInfo := fun _ => .error "denied"
    GetStats := fun pid => if pid = 1 then .ok ⟨(1 : ℕ)⟩ else .error "denied"
    Times := fun _ => .ok ⟨(1 : ℕ), (2 : ℕ), (3 : ℕ)⟩ }

/-- An example library: two processes named "nginx" whose resident memory and
virtual-memory peak are 9007199254740992, the 53rd power of two, and 1. -/
def bigAndOne : ProcessSource float64 :=
  { Pids := .ok [1, 2]
    NewProcess := fun _ => .ok ()
    Name := fun _ => .ok "nginx"
    MemoryInfo := fun pid => if pid = 1 then .ok ⟨9007199254740992⟩ else .ok ⟨1⟩
    VirtualMemoryInfo := fun pid =>
      if pid = 1 then .ok ⟨9007199254740992, 0, 0, 0, 0, 0⟩ else .ok ⟨1, 0, 0, 0, 0, 0⟩
    GetStats := fun _ => .error "denied"
    Times := fun _ => .error "denied" }

/-- An example library: the listing fails, every other call would succeed. -/
def listingFails : ProcessSource float64 :=
  { Pids := .error "open /proc: permission denied"
    NewProcess := fun _ => .ok ()
    Name := fun _ => .ok "nginx"
    MemoryInfo := fun _ => .ok ⟨100⟩
    VirtualMemoryInfo := fun _ => .ok ⟨1, 2, 3, 4, 5, 6⟩
    GetStats := fun _ => .ok ⟨(1 : ℕ)⟩
    Times := fun _ => .ok ⟨(1 : ℕ), (2 : ℕ), (3 : ℕ)⟩ }

/-- An example library: the listing succeeds; pid 1 has no handle, pid 2 no
name, pid 3 the empty name, pid 4 the name "nginx"; every other read fails. -/
def everyReadFails : ProcessSource float64 :=
  { Pids := .ok [1, 2, 3, 4]
    NewProcess := fun pid => if pid = 1 then .error "no such process" else .ok ()
    Name := fun pid => if pid = 2 then .error "no such file" else
      if pid = 3 then .ok "" else .ok "nginx"
    MemoryInfo := fun _ => .error "denied"
    VirtualMemoryInfo := fun _ => .error "denied"
    GetStats := fun _ => .error "denied"
    Times := fun _ => .error "denied" }

/-- Example results of `VirtualMemoryInfo`: every read succeeds. -/
def vmReadable : Pid → Except Error VirtualMemoryInfoStat :=
  fun _ => .ok ⟨10, 20, 30, 40, 50, 60⟩

/-- A library in which the stats read and the times read of pid 1 disagree on
the user time: `GetStats` reports 700, `Times` reports user 7, system 2 and
total 9. -/
def statsAhead : ProcessSource float64 :=
  { Pids := .ok [1]
    NewProcess := fun _ => .ok ()
    Name := fun _ => .ok "nginx"
    MemoryInfo := fun _ => .error "denied"
    VirtualMemoryInfo := fun _ => .error "denied"
    GetStats := fun _ => .ok ⟨(700 : ℕ)⟩
    Times := fun _ => .ok ⟨(7 : ℕ), (2 : ℕ), (9 : ℕ)⟩ }

/-- An example library: the stats read of pid 1 succeeds and its times read
fails; its memory reads succeed. -/
def timesFails : ProcessSource float64 :=
  { Pids := .ok [1]
    NewProcess := fun _ => .ok ()
    Name := fun _ => .ok "nginx"
    MemoryInfo := fun _ => .ok ⟨100⟩
    VirtualMemoryInfo := fun _ => .ok ⟨1, 2, 3, 4, 5, 6⟩
    GetStats := fun _ => .ok ⟨(700 : ℕ)⟩
    Times := fun _ => .error "denied" }

/-- An example library over the rationals, where sums are exact: the two
processes of `twoNginx`. -/
def twoNginxExact : ProcessSource ℚ :=
  { Pids := .ok [1, 2]
    NewProcess := fun _ => .ok ()
    Name := fun _ => .ok "nginx"
    MemoryInfo := fun pid => if pid = 1 then .ok ⟨100⟩ else .ok ⟨50⟩
    VirtualMemoryInfo := fun _ => .error "denied"
    GetStats := fun pid => if pid = 1 then .ok ⟨1⟩ else .error "denied"
    Times := fun _ => .ok ⟨1, 2, 3⟩ }

section General

variable {F : Type} [AddZeroClass F] [NatCast F]

/-! ## Lemmas on Go maps -/

namespace GoMap

variable {V : Type}

theorem lookup_store_same (m : GoMap V) (key : String) (val : V) :
    lookup (store m key val) key = some val := by
  induction m with
  | nil => simp [store, lookup]
  | cons e rest ih =>
    obtain ⟨k, v⟩ := e
    by_cases h : k = key
    · simp [store, lookup, h]
    · simp [store, lookup, h, ih]

theorem lookup_store_other (m : GoMap V) (key key2 : String) (val : V) (h : key ≠ key2) :
    lookup (store m key val) key2 = lookup m key2 := by
  induction m with
  | nil => simp [store, lookup, h]
  | cons e rest ih =>
    obtain ⟨k, v⟩ := e
    by_cases hk : k = key
    · subst hk
      simp [store, lookup, h]
    · by_cases hk2 : k = key2
      · subst hk2
        simp [store, lookup, hk]
      · simp [store, lookup, hk, hk2, ih]

theorem lookup_isSome_iff (m : GoMap V) (key : String) :
    (lookup m key).isSome = true ↔ key ∈ keys m := by
  induction m with
  | nil => simp [lookup, keys]
  | cons e rest ih =>
    obtain ⟨k, v⟩ := e
    by_cases h : k = key
    · simp [lookup, keys, h]
    · have h2 : ¬ key = k := fun c => h c.symm
      simp only [lookup, h, if_false, ih]
      simp [keys, h2]

theorem lookup_eq_none_iff (m : GoMap V) (key : String) :
    lookup m key = none ↔ key ∉ keys m := by
  rw [← lookup_isSome_iff]
  cases lookup m key <;> simp

theorem keys_store_of_mem (m : GoMap V) (key : String) (val : V) (h : key ∈ keys m) :
    keys (store m key val) = keys m := by
  induction m with
  | nil => simp [keys] at h
  | cons e rest ih =>
    obtain ⟨k, v⟩ := e
    by_cases hk : k = key
    · simp [store, keys, hk]
    · have h2 : ¬ key = k := fun c => hk c.symm
      have hr : key ∈ keys rest := by simpa [keys, h2] using h
      have := ih hr
      simp only [keys] at this
      simp [store, keys, hk, this]

theorem keys_store_of_not_mem (m : GoMap V) (key : String) (val : V) (h : key ∉ keys m) :
    keys (store m key val) = keys m ++ [key] := by
  induction m with
  | nil => simp [store, keys]
  | cons e rest ih =>
    obtain ⟨k, v⟩ := e
    have hk : ¬ k = key := fun c => h (by simp [keys, c])
    have hr : key ∉ keys rest := fun c => h (by simp [keys] at c ⊢; exact Or.inr c)
    have := ih hr
    simp only [keys] at this
    simp [store, keys, hk, this]

end GoMap

/-! ## Lemmas on buckets -/

theorem bucketAt_nil (procName key : String) :
    bucketAt ([] : GoMap (procInfo F)) procName key = 0 := by
  simp [bucketAt, GoMap.lookup, procInfo.index]

theorem bucketAt_addAt (procs : GoMap (procInfo F)) (procName key : String) (x : F)
    (n k : String) :
    bucketAt (addAt procs procName key x) n k
      = bucketAt procs n k + (if procName = n ∧ key = k then x else 0) := by
  unfold bucketAt addAt
  by_cases hn : procName = n
  · subst hn
    by_cases hk : key = k
    · subst hk
      simp [GoMap.lookup_store_same, procInfo.index]
    · simp [GoMap.lookup_store_same, GoMap.lookup_store_other _ _ _ _ hk, procInfo.index, hk]
  · simp [GoMap.lookup_store_other _ _ _ _ hn, hn]

theorem bucketAt_ensureBucket (procs : GoMap (procInfo F)) (procName n k : String) :
    bucketAt (ensureBucket procs procName) n k = bucketAt procs n k := by
  unfold ensureBucket
  split
  · rfl
  · rename_i h
    have hnone : GoMap.lookup procs procName = none := by
      cases hl : GoMap.lookup procs procName with
      | none => rfl
      | some v => simp [hl] at h
    unfold bucketAt
    by_cases hn : procName = n
    · subst hn
      simp [GoMap.lookup_store_same, hnone]
    · simp [GoMap.lookup_store_other _ _ _ _ hn]

theorem keys_addAt (procs : GoMap (procInfo F)) (procName key : String) (x : F)
    (h : procName ∈ GoMap.keys procs) :
    GoMap.keys (addAt procs procName key x) = GoMap.keys procs := by
  unfold addAt
  exact GoMap.keys_store_of_mem _ _ _ h

theorem keys_ensureBucket (procs : GoMap (procInfo F)) (procName : String) :
    GoMap.keys (ensureBucket procs procName)
      = if procName ∈ GoMap.keys procs then GoMap.keys procs
        else GoMap.keys procs ++ [procName] := by
  unfold ensureBucket
  by_cases h : procName ∈ GoMap.keys procs
  · have := (GoMap.lookup_isSome_iff procs procName).2 h
    simp [this, h]
  · have h2 : ¬ (GoMap.lookup procs procName).isSome = true :=
      fun c => h ((GoMap.lookup_isSome_iff procs procName).1 c)
    simp only [h2, h, if_false]
    exact GoMap.keys_store_of_not_mem _ _ _ h

theorem mem_keys_ensureBucket (procs : GoMap (procInfo F)) (procName : String) :
    procName ∈ GoMap.keys (ensureBucket procs procName) := by
  rw [keys_ensureBucket]
  split <;> simp_all

/-! ## Lemmas on the aggregation loop -/

theorem bucketAt_addMemory (procs : GoMap (procInfo F)) (procName : String)
    (r : Except Error MemoryInfoStat) (n k : String) :
    bucketAt (addMemory procs procName r) n k
      = bucketAt procs n k + bucketAt (addMemory [] procName r) n k := by
  cases r
  · simp [addMemory, bucketAt_nil]
  · simp only [addMemory, bucketAt_addAt, bucketAt_nil]
    split_ifs <;> simp

theorem bucketAt_addVirtualMem (procs : GoMap (procInfo F)) (procName : String)
    (r : Except Error VirtualMemoryInfoStat) (n k : String) :
    bucketAt (addVirtualMem procs procName r) n k
      = bucketAt procs n k + bucketAt (addVirtualMem [] procName r) n k := by
  cases r
  · simp [addVirtualMem, bucketAt_nil]
  · simp only [addVirtualMem, bucketAt_addAt, bucketAt_nil]
    by_cases hn : procName = n
    · simp only [hn, true_and]
      by_cases h1 : "virtualmem.peak" = k
      · subst h1; simp
      by_cases h2 : "virtualmem.size" = k
      · subst h2; simp
      by_cases h3 : "virtualmem.lock" = k
      · subst h3; simp
      by_cases h4 : "virtualmem.hwm" = k
      · subst h4; simp
      by_cases h5 : "virtualmem.rss" = k
      · subst h5; simp
      by_cases h6 : "virtualmem.swap" = k
      · subst h6; simp
      simp [h1, h2, h3, h4, h5, h6]
    · simp [hn]

theorem bucketAt_addCpu (procs : GoMap (procInfo F)) (procName : String)
    (stats : ProcessStats F) (timesStat : TimesStat F) (n k : String) :
    bucketAt (addCpu procs procName stats timesStat) n k
      = bucketAt procs n k + bucketAt (addCpu [] procName stats timesStat) n k := by
  simp only [addCpu, bucketAt_addAt, bucketAt_nil]
  by_cases hn : procName = n
  · simp only [hn, true_and]
    by_cases h1 : "cpu.user" = k
    · subst h1; simp
    by_cases h2 : "cpu.system" = k
    · subst h2; simp
    by_cases h3 : "cpu.total" = k
    · subst h3; simp
    simp [h1, h2, h3]
  · simp [hn]

/-- The first component of `loopBody`, stage by stage, for a pid with a name. -/
theorem loopBody_fst_of_name (src : ProcessSource F) (procs : GoMap (procInfo F)) (pid : Pid)
    (procName : String) (h : procNameOf src pid = some procName) :
    (loopBody src procs pid).1 =
      match src.GetStats pid, src.Times pid with
      | .ok stats, .ok timesStat =>
        addCpu (addVirtualMem (addMemory (ensureBucket procs procName) procName
          (src.MemoryInfo pid)) procName (src.VirtualMemoryInfo pid)) procName stats timesStat
      | _, _ =>
        addVirtualMem (addMemory (ensureBucket procs procName) procName
          (src.MemoryInfo pid)) procName (src.VirtualMemoryInfo pid) := by
  unfold procNameOf at h
  unfold loopBody
  cases hN : src.NewProcess pid with
  | error e => simp [hN] at h
  | ok u =>
    cases hM : src.Name pid with
    | error e => simp [hN, hM] at h
    | ok nm =>
      simp only [hN, hM] at h
      by_cases he : nm = ""
      · simp [he] at h
      · simp only [he, if_false, Option.some.injEq] at h
        subst h
        simp only [he, if_false]
        cases src.GetStats pid <;> cases src.Times pid <;> rfl

theorem loopBody_fst_of_no_name (src : ProcessSource F) (procs : GoMap (procInfo F)) (pid : Pid)
    (h : procNameOf src pid = none) : (loopBody src procs pid).1 = procs := by
  unfold procNameOf at h
  unfold loopBody
  cases hN : src.NewProcess pid with
  | error e => rfl
  | ok u =>
    cases hM : src.Name pid with
    | error e => rfl
    | ok nm =>
      simp only [hN, hM] at h
      by_cases he : nm = ""
      · simp [he]
      · simp [he] at h

/-- What one pid with bucket name `procName` adds to `procs[n][k]`: the parts
of lines 65-67, of lines 69-76 and of lines 78-86. -/
theorem bucketAt_loopBody_of_name (src : ProcessSource F) (procs : GoMap (procInfo F)) (pid : Pid)
    (procName : String) (h : procNameOf src pid = some procName) (n k : String) :
    bucketAt (loopBody src procs pid).1 n k
      = bucketAt procs n k
        + bucketAt (addMemory [] procName (src.MemoryInfo pid)) n k
        + bucketAt (addVirtualMem [] procName (src.VirtualMemoryInfo pid)) n k
        + (match src.GetStats pid, src.Times pid with
           | .ok stats, .ok timesStat => bucketAt (addCpu [] procName stats timesStat) n k
           | _, _ => 0) := by
  rw [loopBody_fst_of_name _ procs _ _ h]
  have hv : bucketAt (addVirtualMem (addMemory (ensureBucket procs procName) procName
        (src.MemoryInfo pid)) procName (src.VirtualMemoryInfo pid)) n k
      = bucketAt procs n k + bucketAt (addMemory [] procName (src.MemoryInfo pid)) n k
        + bucketAt (addVirtualMem [] procName (src.VirtualMemoryInfo pid)) n k := by
    rw [bucketAt_addVirtualMem, bucketAt_addMemory, bucketAt_ensureBucket]
  cases src.GetStats pid <;> cases src.Times pid <;> simp only
  · rw [hv, add_zero]
  · rw [hv, add_zero]
  · rw [hv, add_zero]
  · rw [bucketAt_addCpu, hv]

theorem bucketAt_addMemory_nil_of_ne (procName : String) (r : Except Error MemoryInfoStat)
    (n k : String) (h : k ≠ "memory.used") :
    bucketAt (addMemory ([] : GoMap (procInfo F)) procName r) n k = 0 := by
  have h2 : ¬ "memory.used" = k := fun c => h c.symm
  cases r <;> simp [addMemory, bucketAt_addAt, bucketAt_nil, h2]

theorem bucketAt_addVirtualMem_nil_of_not_mem (procName : String)
    (r : Except Error VirtualMemoryInfoStat) (n k : String)
    (h : k ∉ ["virtualmem.peak", "virtualmem.size", "virtualmem.lock", "virtualmem.hwm",
      "virtualmem.rss", "virtualmem.swap"]) :
    bucketAt (addVirtualMem ([] : GoMap (procInfo F)) procName r) n k = 0 := by
  simp only [List.mem_cons, List.mem_nil_iff, or_false, not_or] at h
  obtain ⟨h1, h2, h3, h4, h5, h6⟩ := h
  have g1 : ¬ "virtualmem.peak" = k := fun c => h1 c.symm
  have g2 : ¬ "virtualmem.size" = k := fun c => h2 c.symm
  have g3 : ¬ "virtualmem.lock" = k := fun c => h3 c.symm
  have g4 : ¬ "virtualmem.hwm" = k := fun c => h4 c.symm
  have g5 : ¬ "virtualmem.rss" = k := fun c => h5 c.symm
  have g6 : ¬ "virtualmem.swap" = k := fun c => h6 c.symm
  cases r <;> simp [addVirtualMem, bucketAt_addAt, bucketAt_nil, g1, g2, g3, g4, g5, g6]

theorem bucketAt_addCpu_nil_of_not_mem (procName : String) (stats : ProcessStats F)
    (timesStat : TimesStat F) (n k : String)
    (h : k ∉ ["cpu.user", "cpu.system", "cpu.total"]) :
    bucketAt (addCpu ([] : GoMap (procInfo F)) procName stats timesStat) n k = 0 := by
  simp only [List.mem_cons, List.mem_nil_iff, or_false, not_or] at h
  obtain ⟨h1, h2, h3⟩ := h
  have g1 : ¬ "cpu.user" = k := fun c => h1 c.symm
  have g2 : ¬ "cpu.system" = k := fun c => h2 c.symm
  have g3 : ¬ "cpu.total" = k := fun c => h3 c.symm
  simp [addCpu, bucketAt_addAt, bucketAt_nil, g1, g2, g3]

/-- Every key is written by at most one of the three groups of statements:
of three amounts of which two are zero, the sum does not depend on the
bracketing. -/
theorem add_three_of_two_zero (a m v c : F)
    (h : (v = 0 ∧ c = 0) ∨ (m = 0 ∧ c = 0) ∨ (m = 0 ∧ v = 0)) :
    a + m + v + c = a + (m + v + c) := by
  rcases h with ⟨h1, h2⟩ | ⟨h1, h2⟩ | ⟨h1, h2⟩ <;> subst h1 <;> subst h2 <;> simp

theorem bucketAt_loopBody (src : ProcessSource F) (procs : GoMap (procInfo F)) (pid : Pid)
    (n k : String) :
    bucketAt (loopBody src procs pid).1 n k
      = bucketAt procs n k + bucketAt (loopBody src [] pid).1 n k := by
  cases h : procNameOf src pid with
  | none => simp [loopBody_fst_of_no_name _ _ _ h, bucketAt_nil]
  | some procName =>
    rw [bucketAt_loopBody_of_name _ procs _ _ h, bucketAt_loopBody_of_name _ [] _ _ h,
      bucketAt_nil, zero_add]
    obtain ⟨c, hc, hc0⟩ : ∃ c : F,
        (match src.GetStats pid, src.Times pid with
          | .ok stats, .ok timesStat => bucketAt (addCpu [] procName stats timesStat) n k
          | _, _ => 0) = c
        ∧ (k ∉ ["cpu.user", "cpu.system", "cpu.total"] → c = 0) := by
      cases src.GetStats pid <;> cases src.Times pid
      · exact ⟨0, rfl, fun _ => rfl⟩
      · exact ⟨0, rfl, fun _ => rfl⟩
      · exact ⟨0, rfl, fun _ => rfl⟩
      · exact ⟨_, rfl, fun hk => bucketAt_addCpu_nil_of_not_mem _ _ _ _ _ hk⟩
    rw [hc]
    apply add_three_of_two_zero
    by_cases hk : k = "memory.used"
    · refine Or.inl ⟨bucketAt_addVirtualMem_nil_of_not_mem _ _ _ _ ?_, hc0 ?_⟩ <;>
        (subst hk; decide)
    · by_cases hv : k ∈ ["virtualmem.peak", "virtualmem.size", "virtualmem.lock",
          "virtualmem.hwm", "virtualmem.rss", "virtualmem.swap"]
      · refine Or.inr (Or.inl ⟨bucketAt_addMemory_nil_of_ne _ _ _ _ hk, hc0 ?_⟩)
        simp only [List.mem_cons, List.mem_nil_iff, or_false] at hv
        rcases hv with rfl | rfl | rfl | rfl | rfl | rfl <;> decide
      · exact Or.inr (Or.inr ⟨bucketAt_addMemory_nil_of_ne _ _ _ _ hk,
          bucketAt_addVirtualMem_nil_of_not_mem _ _ _ _ hv⟩)

theorem aggregate_fst (src : ProcessSource F) (procs : GoMap (procInfo F)) (calls : List Call)
    (pids : List Pid) : (aggregate src procs calls pids).1 = aggregated src procs pids := by
  induction pids generalizing procs calls with
  | nil => rfl
  | cons pid rest ih =>
    unfold aggregated
    simp only [aggregate]
    rw [ih, ih]

theorem aggregated_nil (src : ProcessSource F) (procs : GoMap (procInfo F)) :
    aggregated src procs [] = procs := rfl

theorem aggregated_cons (src : ProcessSource F) (procs : GoMap (procInfo F)) (pid : Pid)
    (rest : List Pid) :
    aggregated src procs (pid :: rest) = aggregated src (loopBody src procs pid).1 rest := by
  unfold aggregated
  simp only [aggregate]
  rw [aggregate_fst, aggregate_fst]

theorem aggregated_append (src : ProcessSource F) (procs : GoMap (procInfo F))
    (pids pids2 : List Pid) :
    aggregated src procs (pids ++ pids2) = aggregated src (aggregated src procs pids) pids2 := by
  induction pids generalizing procs with
  | nil => rfl
  | cons pid rest ih => simp only [List.cons_append, aggregated_cons, ih]

/-- The value of a cell after the loop: the amounts added by the pids,
accumulated on the starting value in the order of the list. -/
theorem bucketAt_aggregated (src : ProcessSource F) (procs : GoMap (procInfo F))
    (pids : List Pid) (n k : String) :
    bucketAt (aggregated src procs pids) n k
      = pids.foldl (fun acc pid => acc + bucketAt (loopBody src [] pid).1 n k)
          (bucketAt procs n k) := by
  induction pids generalizing procs with
  | nil => simp [aggregated_nil]
  | cons pid rest ih =>
    rw [aggregated_cons, ih, bucketAt_loopBody]
    rfl

theorem keys_addMemory (procs : GoMap (procInfo F)) (procName : String)
    (r : Except Error MemoryInfoStat) (h : procName ∈ GoMap.keys procs) :
    GoMap.keys (addMemory procs procName r) = GoMap.keys procs := by
  cases r
  · rfl
  · exact keys_addAt _ _ _ _ h

theorem keys_addVirtualMem (procs : GoMap (procInfo F)) (procName : String)
    (r : Except Error VirtualMemoryInfoStat) (h : procName ∈ GoMap.keys procs) :
    GoMap.keys (addVirtualMem procs procName r) = GoMap.keys procs := by
  cases r
  · rfl
  · simp only [addVirtualMem]
    have step : ∀ (p : GoMap (procInfo F)) (key : String) (x : F),
        GoMap.keys p = GoMap.keys procs → GoMap.keys (addAt p procName key x) = GoMap.keys procs := by
      intro p key x hp
      rw [keys_addAt _ _ _ _ (hp ▸ h), hp]
    exact step _ _ _ (step _ _ _ (step _ _ _ (step _ _ _ (step _ _ _ (step _ _ _ rfl)))))

theorem keys_addCpu (procs : GoMap (procInfo F)) (procName : String) (stats : ProcessStats F)
    (timesStat : TimesStat F) (h : procName ∈ GoMap.keys procs) :
    GoMap.keys (addCpu procs procName stats timesStat) = GoMap.keys procs := by
  simp only [addCpu]
  have step : ∀ (p : GoMap (procInfo F)) (key : String) (x : F),
      GoMap.keys p = GoMap.keys procs → GoMap.keys (addAt p procName key x) = GoMap.keys procs := by
    intro p key x hp
    rw [keys_addAt _ _ _ _ (hp ▸ h), hp]
  exact step _ _ _ (step _ _ _ (step _ _ _ rfl))

theorem keys_loopBody_of_name (src : ProcessSource F) (procs : GoMap (procInfo F)) (pid : Pid)
    (procName : String) (h : procNameOf src pid = some procName) :
    GoMap.keys (loopBody src procs pid).1 = GoMap.keys (ensureBucket procs procName) := by
  rw [loopBody_fst_of_name _ procs _ _ h]
  have hm := mem_keys_ensureBucket procs procName
  have h1 := keys_addMemory (ensureBucket procs procName) procName (src.MemoryInfo pid) hm
  have h2 := keys_addVirtualMem (addMemory (ensureBucket procs procName) procName
    (src.MemoryInfo pid)) procName (src.VirtualMemoryInfo pid) (h1 ▸ hm)
  cases src.GetStats pid <;> cases src.Times pid <;> simp only
  · rw [h2, h1]
  · rw [h2, h1]
  · rw [h2, h1]
  · rw [keys_addCpu _ _ _ _ (by rw [h2, h1]; exact hm), h2, h1]

theorem mem_keys_loopBody (src : ProcessSource F) (procs : GoMap (procInfo F)) (pid : Pid)
    (n : String) :
    n ∈ GoMap.keys (loopBody src procs pid).1
      ↔ n ∈ GoMap.keys procs ∨ procNameOf src pid = some n := by
  cases h : procNameOf src pid with
  | none => simp [loopBody_fst_of_no_name _ _ _ h]
  | some procName =>
    rw [keys_loopBody_of_name _ _ _ _ h, keys_ensureBucket]
    by_cases hm : procName ∈ GoMap.keys procs
    · simp only [hm, if_true, Option.some.injEq]
      constructor
      · exact Or.inl
      · rintro (h1 | h1)
        · exact h1
        · exact h1 ▸ hm
    · simp only [hm, if_false, List.mem_append, List.mem_singleton, Option.some.injEq]
      constructor
      · rintro (h1 | h1)
        · exact Or.inl h1
        · exact Or.inr h1.symm
      · rintro (h1 | h1)
        · exact Or.inl h1
        · exact Or.inr h1.symm

theorem nodup_keys_loopBody (src : ProcessSource F) (procs : GoMap (procInfo F)) (pid : Pid)
    (hnd : (GoMap.keys procs).Nodup) : (GoMap.keys (loopBody src procs pid).1).Nodup := by
  cases h : procNameOf src pid with
  | none => rw [loopBody_fst_of_no_name _ _ _ h]; exact hnd
  | some procName =>
    rw [keys_loopBody_of_name _ _ _ _ h, keys_ensureBucket]
    by_cases hm : procName ∈ GoMap.keys procs
    · simpa [hm] using hnd
    · simp only [hm, if_false]
      rw [List.nodup_append]
      refine ⟨hnd, List.nodup_singleton _, ?_⟩
      intro a ha hb
      rw [List.mem_singleton] at hb
      exact hm (hb ▸ ha)

theorem mem_keys_aggregated (src : ProcessSource F) (procs : GoMap (procInfo F))
    (pids : List Pid) (n : String) :
    n ∈ GoMap.keys (aggregated src procs pids)
      ↔ n ∈ GoMap.keys procs ∨ ∃ pid ∈ pids, procNameOf src pid = some n := by
  induction pids generalizing procs with
  | nil => simp [aggregated_nil]
  | cons pid rest ih =>
    rw [aggregated_cons, ih, mem_keys_loopBody]
    simp only [List.mem_cons, exists_eq_or_imp, or_assoc]

theorem nodup_keys_aggregated (src : ProcessSource F) (procs : GoMap (procInfo F))
    (pids : List Pid) (hnd : (GoMap.keys procs).Nodup) :
    (GoMap.keys (aggregated src procs pids)).Nodup := by
  induction pids generalizing procs with
  | nil => exact hnd
  | cons pid rest ih =>
    rw [aggregated_cons]
    exact ih _ (nodup_keys_loopBody src procs pid hnd)

/-! ## Lemmas on the metric-building phase -/

theorem mem_schemaPairs_of_lookup (system s : String) (subsystems : List String)
    (h : GoMap.lookup visibleStatNames system = some subsystems) (hs : s ∈ subsystems) :
    (system, s) ∈ schemaPairs := by
  unfold visibleStatNames at h
  simp only [GoMap.lookup] at h
  unfold schemaPairs visibleStatNames
  by_cases h1 : "memory" = system
  · subst h1
    simp only [if_true, Option.some.injEq] at h
    subst h
    simp at hs
    subst hs
    simp
  · by_cases h2 : "cpu" = system
    · subst h2
      simp only [h1, if_false, if_true, Option.some.injEq] at h
      subst h
      simp at hs
      rcases hs with hs | hs | hs <;> subst hs <;> simp
    · by_cases h3 : "virtualmem" = system
      · subst h3
        simp only [h1, h2, if_false, if_true, Option.some.injEq] at h
        subst h
        simp at hs
        rcases hs with hs | hs | hs | hs | hs | hs <;> subst hs <;> simp
      · simp [h1, h2, h3] at h

theorem bucketMetrics_asStored (Namespace procName : String) (proc : procInfo F) :
    bucketMetrics Namespace RangeOrder.asStored procName proc
      = schemaPairs.map fun e => constMetric Namespace procName proc e.1 e.2 := by
  simp [bucketMetrics, systemMetrics, RangeOrder.asStored, GoMap.keys, visibleStatNames,
    GoMap.lookup, schemaPairs]

theorem bucketMetrics_perm (Namespace : String) (sysOrder : RangeOrder) (procName : String)
    (proc : procInfo F) :
    (bucketMetrics Namespace sysOrder procName proc).Perm
      (schemaPairs.map fun e => constMetric Namespace procName proc e.1 e.2) := by
  rw [← bucketMetrics_asStored]
  unfold bucketMetrics
  exact List.Perm.flatMap_right _ (sysOrder.visit_perm _)

theorem lookup_of_mem_nodup (procs : GoMap (procInfo F)) (hnd : (GoMap.keys procs).Nodup)
    (e : String × procInfo F) (he : e ∈ procs) : GoMap.lookup procs e.1 = some e.2 := by
  induction procs with
  | nil => simp at he
  | cons a rest ih =>
    obtain ⟨k, v⟩ := a
    simp only [GoMap.keys, List.map_cons, List.nodup_cons] at hnd
    rcases List.mem_cons.1 he with h | h
    · subst h
      simp [GoMap.lookup]
    · have hk : ¬ k = e.1 := by
        intro c
        exact hnd.1 (c ▸ List.mem_map_of_mem Prod.fst h)
      simp only [GoMap.lookup, hk, if_false]
      exact ih hnd.2 h

theorem mem_of_lookup (procs : GoMap (procInfo F)) (procName : String) (proc : procInfo F)
    (h : GoMap.lookup procs procName = some proc) : (procName, proc) ∈ procs := by
  induction procs with
  | nil => simp [GoMap.lookup] at h
  | cons a rest ih =>
    obtain ⟨k, v⟩ := a
    by_cases hk : k = procName
    · simp only [GoMap.lookup, hk, if_true, Option.some.injEq] at h
      simp [hk, h]
    · simp only [GoMap.lookup, hk, if_false] at h
      exact List.mem_cons_of_mem _ (ih h)

/-- Up to the order of the records, the metrics built from a bucket map are
the ten metrics of every bucket. -/
theorem buildMetrics_perm (Namespace : String) (nameOrder : RangeOrder)
    (sysOrder : String → RangeOrder) (procs : GoMap (procInfo F))
    (hnd : (GoMap.keys procs).Nodup) :
    (buildMetrics Namespace nameOrder sysOrder procs).Perm
      (procs.flatMap fun e =>
        schemaPairs.map fun q => constMetric Namespace e.1 e.2 q.1 q.2) := by
  unfold buildMetrics
  refine (List.Perm.flatMap_right _ (nameOrder.visit_perm _)).trans ?_
  refine (List.Perm.flatMap_left _ (fun n _ => bucketMetrics_perm Namespace (sysOrder n) n
    ((GoMap.lookup procs n).getD []))).trans ?_
  unfold GoMap.keys
  rw [List.flatMap_map]
  apply List.Perm.flatMap_left
  intro e he
  rw [lookup_of_mem_nodup procs hnd e he]
  exact List.Perm.refl _

theorem filter_isSeries_bucket (Namespace procName : String) (e : String × procInfo F)
    (system s : String) (hq : (system, s) ∈ schemaPairs) :
    (schemaPairs.map fun q => constMetric Namespace e.1 e.2 q.1 q.2).filter
        (fun m => decide (Metric.isSeries Namespace m system s procName))
      = if e.1 = procName then [constMetric Namespace e.1 e.2 system s] else [] := by
  simp only [schemaPairs, visibleStatNames, List.flatMap_cons, List.flatMap_nil, List.map_cons,
    List.map_nil, List.append_nil, List.cons_append, List.nil_append, List.mem_cons,
    Prod.mk.injEq, List.mem_nil_iff, or_false] at hq
  by_cases hn : e.1 = procName
  · rcases hq with ⟨rfl, rfl⟩ | ⟨rfl, rfl⟩ | ⟨rfl, rfl⟩ | ⟨rfl, rfl⟩ | ⟨rfl, rfl⟩ | ⟨rfl, rfl⟩
      | ⟨rfl, rfl⟩ | ⟨rfl, rfl⟩ | ⟨rfl, rfl⟩ | ⟨rfl, rfl⟩ <;>
    simp [schemaPairs, visibleStatNames, Metric.isSeries, constMetric, systemDesc, hn,
      List.filter_cons]
  · simp [schemaPairs, visibleStatNames, Metric.isSeries, constMetric, systemDesc, hn,
      List.filter_cons]

theorem flatMap_ite (β : Type) (procs : GoMap (procInfo F))
    (hnd : (GoMap.keys procs).Nodup) (procName : String) (proc : procInfo F)
    (h : GoMap.lookup procs procName = some proc) (G : String × procInfo F → List β) :
    (procs.flatMap fun e => if e.1 = procName then G e else []) = G (procName, proc) := by
  induction procs with
  | nil => simp [GoMap.lookup] at h
  | cons a rest ih =>
    obtain ⟨k, v⟩ := a
    simp only [GoMap.keys, List.map_cons, List.nodup_cons] at hnd
    by_cases hk : k = procName
    · subst hk
      simp only [GoMap.lookup, if_true, Option.some.injEq] at h
      subst h
      have hrest : (rest.flatMap fun e => if e.1 = k then G e else []) = [] := by
        rw [List.flatMap_eq_nil_iff]
        intro e he
        have : ¬ e.1 = k := fun c => hnd.1 (c ▸ List.mem_map_of_mem Prod.fst he)
        simp [this]
      simp [hrest]
    · simp only [GoMap.lookup, hk, if_false] at h
      simp only [List.flatMap_cons, hk, if_false, List.nil_append]
      exact ih hnd.2 h

theorem filter_isSeries_buildMetrics (Namespace : String) (nameOrder : RangeOrder)
    (sysOrder : String → RangeOrder) (procs : GoMap (procInfo F))
    (hnd : (GoMap.keys procs).Nodup) (procName : String) (proc : procInfo F)
    (system s : String) (h : GoMap.lookup procs procName = some proc)
    (hq : (system, s) ∈ schemaPairs) :
    (buildMetrics Namespace nameOrder sysOrder procs).filter
        (fun m => decide (Metric.isSeries Namespace m system s procName))
      = [constMetric Namespace procName proc system s] := by
  apply List.perm_singleton.1
  refine ((buildMetrics_perm Namespace nameOrder sysOrder procs hnd).filter _).trans ?_
  rw [List.filter_flatMap]
  have hf : (fun e : String × procInfo F =>
      (schemaPairs.map fun q => constMetric Namespace e.1 e.2 q.1 q.2).filter
        (fun m => decide (Metric.isSeries Namespace m system s procName)))
      = fun e => if e.1 = procName then [constMetric Namespace e.1 e.2 system s] else [] :=
    funext fun e => filter_isSeries_bucket Namespace procName e system s hq
  rw [hf, flatMap_ite (Metric F) procs hnd procName proc h
    (fun e => [constMetric Namespace e.1 e.2 system s])]

theorem mem_buildMetrics (Namespace : String) (nameOrder : RangeOrder)
    (sysOrder : String → RangeOrder) (procs : GoMap (procInfo F))
    (hnd : (GoMap.keys procs).Nodup) (m : Metric F) :
    m ∈ buildMetrics Namespace nameOrder sysOrder procs
      ↔ ∃ e ∈ procs, ∃ q ∈ schemaPairs, m = constMetric Namespace e.1 e.2 q.1 q.2 := by
  rw [(buildMetrics_perm Namespace nameOrder sysOrder procs hnd).mem_iff]
  simp only [List.mem_flatMap, List.mem_map]
  constructor
  · rintro ⟨e, he, q, hq, rfl⟩
    exact ⟨e, he, q, hq, rfl⟩
  · rintro ⟨e, he, q, hq, rfl⟩
    exact ⟨e, he, q, hq, rfl⟩

theorem lookup_of_mem_schemaPairs (system s : String) (hq : (system, s) ∈ schemaPairs) :
    ∃ subsystems, GoMap.lookup visibleStatNames system = some subsystems ∧ s ∈ subsystems := by
  simp only [schemaPairs, visibleStatNames, List.flatMap_cons, List.flatMap_nil, List.map_cons,
    List.map_nil, List.append_nil, List.cons_append, List.nil_append, List.mem_cons,
    Prod.mk.injEq, List.mem_nil_iff, or_false] at hq
  rcases hq with ⟨rfl, rfl⟩ | ⟨rfl, rfl⟩ | ⟨rfl, rfl⟩ | ⟨rfl, rfl⟩ | ⟨rfl, rfl⟩ | ⟨rfl, rfl⟩
      | ⟨rfl, rfl⟩ | ⟨rfl, rfl⟩ | ⟨rfl, rfl⟩ | ⟨rfl, rfl⟩ <;>
    simp [visibleStatNames, GoMap.lookup]

/-! ## C1: content of the expansion -/

/-- C1. For every bucket map, every process name `procName` in it with bucket
`proc`, and every subsystem `s` of a system of `visibleStatNames`, the metrics
built by `Update` contain exactly one record of the series
`(system, s, procName)`; its value is the entry of `proc` for the key
`system + "." + s` when there is one and 0 otherwise. Every record built is
such a record. -/
theorem C1_expansion_content (Namespace : String) (nameOrder : RangeOrder)
    (sysOrder : String → RangeOrder) (procs : GoMap (procInfo F))
    (hnd : (GoMap.keys procs).Nodup) :
    (∀ procName proc system subsystems s,
        GoMap.lookup procs procName = some proc →
        GoMap.lookup visibleStatNames system = some subsystems → s ∈ subsystems →
        (buildMetrics Namespace nameOrder sysOrder procs).filter
            (fun m => decide (Metric.isSeries Namespace m system s procName))
          = [constMetric Namespace procName proc system s]
        ∧ (∀ v, GoMap.lookup proc (system ++ "." ++ s) = some v →
            (constMetric Namespace procName proc system s).value = v)
        ∧ (GoMap.lookup proc (system ++ "." ++ s) = none →
            (constMetric Namespace procName proc system s).value = 0))
    ∧ (∀ m ∈ buildMetrics Namespace nameOrder sysOrder procs,
        ∃ procName proc system subsystems s,
          GoMap.lookup procs procName = some proc ∧
          GoMap.lookup visibleStatNames system = some subsystems ∧ s ∈ subsystems ∧
          m = constMetric Namespace procName proc system s) := by
  constructor
  · intro procName proc system subsystems s hl hsys hs
    refine ⟨filter_isSeries_buildMetrics Namespace nameOrder sysOrder procs hnd procName proc
      system s hl (mem_schemaPairs_of_lookup system s subsystems hsys hs), ?_, ?_⟩
    · intro v hv
      simp [constMetric, procInfo.index, hv]
    · intro hv
      simp [constMetric, procInfo.index, hv]
  · intro m hm
    obtain ⟨e, he, q, hq, rfl⟩ := (mem_buildMetrics Namespace nameOrder sysOrder procs hnd m).1 hm
    obtain ⟨subsystems, hsys, hs⟩ := lookup_of_mem_schemaPairs q.1 q.2 hq
    exact ⟨e.1, e.2, q.1, subsystems, q.2, lookup_of_mem_nodup procs hnd e he, hsys, hs, rfl⟩

/-- Witness of C1: one bucket "nginx" holding only the key "memory.used"; the
series (cpu, user, nginx) has exactly one record, and that record has value 0. -/
theorem C1_expansion_content_witness :
    (GoMap.keys ([("nginx", [("memory.used", ((150 : ℕ) : float64))])] :
      GoMap (procInfo float64))).Nodup
    ∧ (buildMetrics "node" RangeOrder.reversed (fun _ => RangeOrder.reversed)
          [("nginx", [("memory.used", ((150 : ℕ) : float64))])]).filter
        (fun m => decide (Metric.isSeries "node" m "cpu" "user" "nginx"))
      = [constMetric "node" "nginx" [("memory.used", ((150 : ℕ) : float64))] "cpu" "user"]
    ∧ (constMetric "node" "nginx" [("memory.used", ((150 : ℕ) : float64))] "cpu" "user").value = 0 :=
  have h := (C1_expansion_content "node" RangeOrder.reversed (fun _ => RangeOrder.reversed)
    [("nginx", [("memory.used", ((150 : ℕ) : float64))])] (by decide)).1 "nginx"
    [("memory.used", ((150 : ℕ) : float64))] "cpu" ["total", "user", "system"] "user"
    (by decide) (by decide) (by decide)
  ⟨by decide, h.1, h.2.2 (by decide)⟩

/-! ## Family names -/

theorem string_append_left_cancel (a b c : String) (h : a ++ b = a ++ c) : b = c := by
  apply String.ext
  have := congrArg String.data h
  simpa using this

theorem string_append_ne_empty (a b : String) (ha : a ≠ "") : a ++ b ≠ "" := by
  intro h
  have := congrArg String.data h
  simp at this
  exact ha (String.ext (by simpa using this.1))

theorem BuildFQName_process (Namespace system : String) (hs : system ≠ "") :
    BuildFQName Namespace "process" system
      = (if Namespace = "" then "process_" else Namespace ++ "_process_") ++ system := by
  unfold BuildFQName
  have h3 : ("process" : String) ≠ "" := by decide
  by_cases hn : Namespace = ""
  · subst hn
    have h1 : ¬ (("" : String) ≠ "" ∧ ("process" : String) ≠ "") := fun c => c.1 rfl
    have h2 : ¬ (("" : String) ≠ "") := fun c => c rfl
    rw [if_neg hs, if_neg h1, if_neg h2, if_pos h3, if_pos rfl]
    rfl
  · have h1 : Namespace ≠ "" ∧ ("process" : String) ≠ "" := ⟨hn, h3⟩
    rw [if_neg hs, if_pos h1, if_neg hn]
    apply String.ext
    simp [String.data_append]

/-- Distinct systems get distinct family names. -/
theorem BuildFQName_process_inj (Namespace a b : String) :
    BuildFQName Namespace "process" a = BuildFQName Namespace "process" b ↔ a = b := by
  constructor
  · intro h
    have hpre : (if Namespace = "" then "process_" else Namespace ++ "_process_") ≠ "" := by
      by_cases hn : Namespace = ""
      · simp only [hn, if_true]; decide
      · simp only [hn, if_false]
        intro c
        have := congrArg String.data c
        simp at this
    by_cases ha : a = ""
    · by_cases hb : b = ""
      · rw [ha, hb]
      · rw [BuildFQName_process _ b hb, ha] at h
        have h0 : BuildFQName Namespace "process" "" = "" := by simp [BuildFQName]
        rw [h0] at h
        exact absurd h.symm (string_append_ne_empty _ _ hpre)
    · by_cases hb : b = ""
      · rw [BuildFQName_process _ a ha, hb] at h
        have h0 : BuildFQName Namespace "process" "" = "" := by simp [BuildFQName]
        rw [h0] at h
        exact absurd h (string_append_ne_empty _ _ hpre)
      · rw [BuildFQName_process _ a ha, BuildFQName_process _ b hb] at h
        exact string_append_left_cancel _ _ _ h
  · intro h
    rw [h]

/-! ## What `Update` returns -/

theorem Update_of_ok (Namespace : String) (src : ProcessSource F) (nameOrder : RangeOrder)
    (sysOrder : String → RangeOrder) (pids : List Pid) (hp : src.Pids = .ok pids) :
    (Update Namespace src nameOrder sysOrder).err = none
    ∧ (Update Namespace src nameOrder sysOrder).emitted
        = buildMetrics Namespace nameOrder sysOrder (aggregated src [] pids) := by
  constructor <;> simp [Update, hp, aggregate_fst]

theorem nodup_keys_aggregated_nil (src : ProcessSource F) (pids : List Pid) :
    (GoMap.keys (aggregated src [] pids)).Nodup :=
  nodup_keys_aggregated src [] pids (by simp [GoMap.keys])

theorem mem_keys_aggregated_nil (src : ProcessSource F) (pids : List Pid) (n : String) :
    n ∈ GoMap.keys (aggregated src [] pids) ↔ n ∈ pids.filterMap (procNameOf src) := by
  rw [mem_keys_aggregated]
  simp [GoMap.keys, List.mem_filterMap]

/-- The keys of the bucket map are the distinct names of the pids. -/
theorem keys_aggregated_perm (src : ProcessSource F) (pids : List Pid) :
    (GoMap.keys (aggregated src [] pids)).Perm (pids.filterMap (procNameOf src)).dedup := by
  rw [List.perm_ext_iff_of_nodup (nodup_keys_aggregated_nil src pids) (List.nodup_dedup _)]
  intro n
  rw [mem_keys_aggregated_nil, List.mem_dedup]

/-- Filtering the built metrics by a predicate that selects, bucket by bucket,
the records `L e` of one process name only. -/
theorem filter_buildMetrics_perm (Namespace : String) (nameOrder : RangeOrder)
    (sysOrder : String → RangeOrder) (procs : GoMap (procInfo F))
    (hnd : (GoMap.keys procs).Nodup) (procName : String) (proc : procInfo F)
    (h : GoMap.lookup procs procName = some proc) (P : Metric F → Bool)
    (L : String × procInfo F → List (Metric F))
    (hL : ∀ e : String × procInfo F,
      (schemaPairs.map fun q => constMetric Namespace e.1 e.2 q.1 q.2).filter P
        = if e.1 = procName then L e else []) :
    ((buildMetrics Namespace nameOrder sysOrder procs).filter P).Perm (L (procName, proc)) := by
  refine ((buildMetrics_perm Namespace nameOrder sysOrder procs hnd).filter _).trans ?_
  rw [List.filter_flatMap]
  have hf : (fun e : String × procInfo F =>
      (schemaPairs.map fun q => constMetric Namespace e.1 e.2 q.1 q.2).filter P)
      = fun e => if e.1 = procName then L e else [] := funext hL
  rw [hf, flatMap_ite (Metric F) procs hnd procName proc h L]

theorem length_buildMetrics (Namespace : String) (nameOrder : RangeOrder)
    (sysOrder : String → RangeOrder) (procs : GoMap (procInfo F))
    (hnd : (GoMap.keys procs).Nodup) :
    (buildMetrics Namespace nameOrder sysOrder procs).length = (GoMap.keys procs).length * 10 := by
  rw [(buildMetrics_perm Namespace nameOrder sysOrder procs hnd).length_eq]
  clear hnd
  induction procs with
  | nil => rfl
  | cons a rest ih =>
    simp only [List.flatMap_cons, List.length_append, ih, GoMap.keys, List.map_cons,
      List.length_cons, List.length_map]
    have : schemaPairs.length = 10 := by decide
    rw [this]
    ring

theorem lookup_aggregated_of_named (src : ProcessSource F) (pids : List Pid) (n : String)
    (hn : n ∈ pids.filterMap (procNameOf src)) :
    ∃ proc, GoMap.lookup (aggregated src [] pids) n = some proc := by
  have hk := (mem_keys_aggregated_nil src pids n).2 hn
  have := (GoMap.lookup_isSome_iff _ _).2 hk
  cases hl : GoMap.lookup (aggregated src [] pids) n with
  | none => simp [hl] at this
  | some proc => exact ⟨proc, rfl⟩

theorem filter_name_bucket (Namespace n : String) (e : String × procInfo F) :
    (schemaPairs.map fun q => constMetric Namespace e.1 e.2 q.1 q.2).filter
        (fun m => decide (m.labelValues.head? = some n))
      = if e.1 = n then (schemaPairs.map fun q => constMetric Namespace e.1 e.2 q.1 q.2)
        else [] := by
  by_cases hn : e.1 = n <;>
    simp [schemaPairs, visibleStatNames, constMetric, hn, List.filter_cons]

theorem filter_name_system_bucket (Namespace n system : String) (e : String × procInfo F) :
    (schemaPairs.map fun q => constMetric Namespace e.1 e.2 q.1 q.2).filter
        (fun m => decide (m.labelValues.head? = some n
          ∧ m.desc.fqName = BuildFQName Namespace "process" system))
      = if e.1 = n then
          ((schemaPairs.filter fun q => decide (q.1 = system)).map
            fun q => constMetric Namespace e.1 e.2 q.1 q.2)
        else [] := by
  by_cases hn : e.1 = n
  · simp only [hn, if_true, List.filter_map]
    congr 1
    apply List.filter_congr
    intro q _
    simp [constMetric, systemDesc, BuildFQName_process_inj, hn]
  · simp [schemaPairs, visibleStatNames, constMetric, hn, List.filter_cons]

/-! ## C2: schema completeness -/

/-- C2. When the listing of the pids succeeds, `Update` emits ten records for
every distinct process name that received a bucket, whatever the results of
the per-process reads: the number of records is ten times the number of
distinct names, and every such name labels exactly ten records, one of the
family of "memory", three of "cpu" and six of "virtualmem". -/
theorem C2_schema_completeness (Namespace : String) (src : ProcessSource F)
    (nameOrder : RangeOrder) (sysOrder : String → RangeOrder) (pids : List Pid)
    (hp : src.Pids = .ok pids) :
    (Update Namespace src nameOrder sysOrder).emitted.length
      = (pids.filterMap (procNameOf src)).dedup.length * 10
    ∧ ∀ n ∈ pids.filterMap (procNameOf src),
        (Update Namespace src nameOrder sysOrder).emitted.countP
            (fun m => decide (m.labelValues.head? = some n)) = 10
        ∧ (Update Namespace src nameOrder sysOrder).emitted.countP
            (fun m => decide (m.labelValues.head? = some n
              ∧ m.desc.fqName = BuildFQName Namespace "process" "memory")) = 1
        ∧ (Update Namespace src nameOrder sysOrder).emitted.countP
            (fun m => decide (m.labelValues.head? = some n
              ∧ m.desc.fqName = BuildFQName Namespace "process" "cpu")) = 3
        ∧ (Update Namespace src nameOrder sysOrder).emitted.countP
            (fun m => decide (m.labelValues.head? = some n
              ∧ m.desc.fqName = BuildFQName Namespace "process" "virtualmem")) = 6 := by
  have hnd := nodup_keys_aggregated_nil src pids
  rw [(Update_of_ok Namespace src nameOrder sysOrder pids hp).2]
  constructor
  · rw [length_buildMetrics _ _ _ _ hnd, (keys_aggregated_perm src pids).length_eq]
  · intro n hn
    obtain ⟨proc, hl⟩ := lookup_aggregated_of_named src pids n hn
    have hsys : ∀ system : String,
        (buildMetrics Namespace nameOrder sysOrder (aggregated src [] pids)).countP
          (fun m => decide (m.labelValues.head? = some n
            ∧ m.desc.fqName = BuildFQName Namespace "process" system))
        = (schemaPairs.filter fun q => decide (q.1 = system)).length := by
      intro system
      rw [List.countP_eq_length_filter,
        (filter_buildMetrics_perm Namespace nameOrder sysOrder _ hnd n proc hl _ _
          (filter_name_system_bucket Namespace n system)).length_eq, List.length_map]
    refine ⟨?_, ?_, ?_, ?_⟩
    · rw [List.countP_eq_length_filter,
        (filter_buildMetrics_perm Namespace nameOrder sysOrder _ hnd n proc hl _ _
          (filter_name_bucket Namespace n)).length_eq, List.length_map]
      decide
    · rw [hsys]; decide
    · rw [hsys]; decide
    · rw [hsys]; decide

/-- Witness of C2, on `everyReadFails`: four pids of which one is named
"nginx"; every per-process read of statistics fails. -/
theorem C2_schema_completeness_witness :
    (Update "node" everyReadFails RangeOrder.asStored
        (fun _ => RangeOrder.reversed)).emitted.length = 1 * 10 :=
  (C2_schema_completeness "node" everyReadFails RangeOrder.asStored
    (fun _ => RangeOrder.reversed) [1, 2, 3, 4] rfl).1

/-! ## Sums of readings -/

/-- Accumulating the amounts of all pids, where a pid that is not attributed to
`N` or whose read fails adds zero, is accumulating the successful readings of
the pids attributed to `N`. -/
theorem foldl_eq_readings {α : Type} (src : ProcessSource F) (pids : List Pid) (N : String)
    (read : Pid → Except Error α) (fld : α → F) (g : Pid → F)
    (hg : ∀ pid, g pid = if procNameOf src pid = some N then
      ((read pid).toOption.map fld).getD 0 else 0) (a : F) :
    pids.foldl (fun acc pid => acc + g pid) a
      = (readingsOf src pids N read).foldl (fun acc r => acc + fld r) a := by
  unfold readingsOf
  induction pids generalizing a with
  | nil => rfl
  | cons pid rest ih =>
    rw [List.foldl_cons, ih, hg pid, List.filterMap_cons]
    by_cases hn : procNameOf src pid = some N
    · cases hr : read pid with
      | error e => simp [hn, Except.toOption]
      | ok r => simp [hn, Except.toOption]
    · simp [hn]

/-- What one pid adds to the key "memory.used" of the bucket `N`. -/
theorem contrib_memory_used (src : ProcessSource F) (pid : Pid) (N : String) :
    bucketAt (loopBody src [] pid).1 N "memory.used"
      = if procNameOf src pid = some N then
          (((src.MemoryInfo pid).toOption.map fun r => (r.RSS : F)).getD 0) else 0 := by
  cases h : procNameOf src pid with
  | none => simp [loopBody_fst_of_no_name _ _ _ h, bucketAt_nil]
  | some nm =>
    rw [bucketAt_loopBody_of_name _ _ _ _ h]
    cases src.MemoryInfo pid <;> cases src.VirtualMemoryInfo pid <;>
      cases src.GetStats pid <;> cases src.Times pid <;>
      simp [addMemory, addVirtualMem, addCpu, bucketAt_addAt, bucketAt_nil, Except.toOption]

theorem bucketAt_memory_used (src : ProcessSource F) (pids : List Pid) (N : String) :
    bucketAt (aggregated src [] pids) N "memory.used"
      = accumulate (fun r => (r.RSS : F)) (readingsOf src pids N src.MemoryInfo) := by
  rw [bucketAt_aggregated, bucketAt_nil]
  exact foldl_eq_readings src pids N src.MemoryInfo (fun r => (r.RSS : F)) _
    (fun pid => contrib_memory_used src pid N) 0

/-- The record emitted for a series of a process name with a bucket carries the
value of the bucket map at the key of the series. -/
theorem emitted_series (Namespace : String) (src : ProcessSource F) (nameOrder : RangeOrder)
    (sysOrder : String → RangeOrder) (pids : List Pid) (hp : src.Pids = .ok pids)
    (N : String) (hN : N ∈ pids.filterMap (procNameOf src)) (system s : String)
    (hq : (system, s) ∈ schemaPairs) :
    ∃ m, (Update Namespace src nameOrder sysOrder).emitted.filter
          (fun m => decide (Metric.isSeries Namespace m system s N)) = [m]
      ∧ m.value = bucketAt (aggregated src [] pids) N (system ++ "." ++ s) := by
  obtain ⟨proc, hl⟩ := lookup_aggregated_of_named src pids N hN
  refine ⟨constMetric Namespace N proc system s, ?_, ?_⟩
  · rw [(Update_of_ok Namespace src nameOrder sysOrder pids hp).2]
    exact filter_isSeries_buildMetrics Namespace nameOrder sysOrder _
      (nodup_keys_aggregated_nil src pids) N proc system s hl hq
  · simp [constMetric, bucketAt, hl]

/-! ## C3: summation of resident memory -/

/-- C3. When the listing succeeds, the record emitted for the series
("memory", "used", N) of a process name `N` with a bucket has as value the sum
of the `RSS` readings, each converted to the type of the values, over exactly
the pids of the list that are attributed to `N` and whose `MemoryInfo` read
succeeds; the sum is accumulated from zero in the order of the list, in the
arithmetic of the values (for `float64`, with its rounding). In particular,
for two pids attributed to the same name with readings `r1` and `r2`, the
value is the sum of the two converted readings. -/
theorem C3_memory_used_sum (Namespace : String) (src : ProcessSource F)
    (nameOrder : RangeOrder) (sysOrder : String → RangeOrder) (pids : List Pid)
    (hp : src.Pids = .ok pids) :
    (∀ N ∈ pids.filterMap (procNameOf src),
      ∃ m, (Update Namespace src nameOrder sysOrder).emitted.filter
            (fun m => decide (Metric.isSeries Namespace m "memory" "used" N)) = [m]
        ∧ m.value = accumulate (fun r => (r.RSS : F)) (readingsOf src pids N src.MemoryInfo))
    ∧ (∀ N p1 p2 r1 r2, pids = [p1, p2] →
        procNameOf src p1 = some N → procNameOf src p2 = some N →
        src.MemoryInfo p1 = .ok r1 → src.MemoryInfo p2 = .ok r2 →
        ∃ m, (Update Namespace src nameOrder sysOrder).emitted.filter
              (fun m => decide (Metric.isSeries Namespace m "memory" "used" N)) = [m]
          ∧ m.value = (r1.RSS : F) + (r2.RSS : F)) := by
  have main : ∀ N ∈ pids.filterMap (procNameOf src),
      ∃ m, (Update Namespace src nameOrder sysOrder).emitted.filter
            (fun m => decide (Metric.isSeries Namespace m "memory" "used" N)) = [m]
        ∧ m.value
          = accumulate (fun r => (r.RSS : F)) (readingsOf src pids N src.MemoryInfo) := by
    intro N hN
    obtain ⟨m, hm, hv⟩ := emitted_series Namespace src nameOrder sysOrder pids hp N hN
      "memory" "used" (by decide)
    refine ⟨m, hm, ?_⟩
    rw [hv, ← bucketAt_memory_used]
    rfl
  refine ⟨main, ?_⟩
  intro N p1 p2 r1 r2 hpids h1 h2 hr1 hr2
  have hN : N ∈ pids.filterMap (procNameOf src) := by
    rw [hpids, List.mem_filterMap]
    exact ⟨p1, List.mem_cons_self _ _, h1⟩
  obtain ⟨m, hm, hv⟩ := main N hN
  refine ⟨m, hm, ?_⟩
  rw [hv, hpids]
  simp [accumulate, readingsOf, h1, h2, hr1, hr2, Except.toOption]

/-- Witness of C3, on `bigAndOne` in `float64`: two processes named "nginx"
with resident memory 9007199254740992 and 1; the sum of the two converted
readings is 9007199254740992. -/
theorem C3_memory_used_sum_witness :
    ∃ m, (Update "node" bigAndOne RangeOrder.asStored (fun _ => RangeOrder.asStored)).emitted.filter
          (fun m => decide (Metric.isSeries "node" m "memory" "used" "nginx")) = [m]
      ∧ m.value = ((9007199254740992 : ℕ) : float64) :=
  match (C3_memory_used_sum "node" bigAndOne RangeOrder.asStored (fun _ => RangeOrder.asStored)
    [1, 2] rfl).2 "nginx" 1 2 ⟨9007199254740992⟩ ⟨1⟩ rfl (by decide) (by decide) rfl rfl with
  | ⟨m, hm, hv⟩ => ⟨m, hm, hv.trans (by decide)⟩

/-! ## C4: the six virtual-memory keys -/

/-- What one pid adds to the six "virtualmem" keys of the bucket `N`. -/
theorem contrib_virtualmem (src : ProcessSource F) (pid : Pid) (N : String) :
    (bucketAt (loopBody src [] pid).1 N "virtualmem.peak"
      = if procNameOf src pid = some N then
          (((src.VirtualMemoryInfo pid).toOption.map fun r => (r.VMPeak : F)).getD 0) else 0)
    ∧ (bucketAt (loopBody src [] pid).1 N "virtualmem.size"
      = if procNameOf src pid = some N then
          (((src.VirtualMemoryInfo pid).toOption.map fun r => (r.VMSize : F)).getD 0) else 0)
    ∧ (bucketAt (loopBody src [] pid).1 N "virtualmem.lock"
      = if procNameOf src pid = some N then
          (((src.VirtualMemoryInfo pid).toOption.map fun r => (r.VMLck : F)).getD 0) else 0)
    ∧ (bucketAt (loopBody src [] pid).1 N "virtualmem.hwm"
      = if procNameOf src pid = some N then
          (((src.VirtualMemoryInfo pid).toOption.map fun r => (r.VMHWM : F)).getD 0) else 0)
    ∧ (bucketAt (loopBody src [] pid).1 N "virtualmem.rss"
      = if procNameOf src pid = some N then
          (((src.VirtualMemoryInfo pid).toOption.map fun r => (r.VMRSS : F)).getD 0) else 0)
    ∧ (bucketAt (loopBody src [] pid).1 N "virtualmem.swap"
      = if procNameOf src pid = some N then
          (((src.VirtualMemoryInfo pid).toOption.map fun r => (r.VMSwap : F)).getD 0) else 0) := by
  cases h : procNameOf src pid with
  | none => simp [loopBody_fst_of_no_name _ _ _ h, bucketAt_nil]
  | some nm =>
    simp only [bucketAt_loopBody_of_name _ _ _ _ h]
    cases src.MemoryInfo pid <;> cases src.VirtualMemoryInfo pid <;>
      cases src.GetStats pid <;> cases src.Times pid <;>
      simp [addMemory, addVirtualMem, addCpu, bucketAt_addAt, bucketAt_nil, Except.toOption]

theorem bucketAt_virtualmem_keys (src : ProcessSource F) (pids : List Pid) (N : String) :
    bucketAt (aggregated src [] pids) N "virtualmem.peak"
      = accumulate (fun r => (r.VMPeak : F)) (readingsOf src pids N src.VirtualMemoryInfo)
    ∧ bucketAt (aggregated src [] pids) N "virtualmem.size"
      = accumulate (fun r => (r.VMSize : F)) (readingsOf src pids N src.VirtualMemoryInfo)
    ∧ bucketAt (aggregated src [] pids) N "virtualmem.lock"
      = accumulate (fun r => (r.VMLck : F)) (readingsOf src pids N src.VirtualMemoryInfo)
    ∧ bucketAt (aggregated src [] pids) N "virtualmem.hwm"
      = accumulate (fun r => (r.VMHWM : F)) (readingsOf src pids N src.VirtualMemoryInfo)
    ∧ bucketAt (aggregated src [] pids) N "virtualmem.rss"
      = accumulate (fun r => (r.VMRSS : F)) (readingsOf src pids N src.VirtualMemoryInfo)
    ∧ bucketAt (aggregated src [] pids) N "virtualmem.swap"
      = accumulate (fun r => (r.VMSwap : F)) (readingsOf src pids N src.VirtualMemoryInfo) := by
  simp only [bucketAt_aggregated, bucketAt_nil, accumulate]
  refine ⟨?_, ?_, ?_, ?_, ?_, ?_⟩
  · exact foldl_eq_readings src pids N src.VirtualMemoryInfo (fun r => (r.VMPeak : F)) _
      (fun pid => (contrib_virtualmem src pid N).1) 0
  · exact foldl_eq_readings src pids N src.VirtualMemoryInfo (fun r => (r.VMSize : F)) _
      (fun pid => (contrib_virtualmem src pid N).2.1) 0
  · exact foldl_eq_readings src pids N src.VirtualMemoryInfo (fun r => (r.VMLck : F)) _
      (fun pid => (contrib_virtualmem src pid N).2.2.1) 0
  · exact foldl_eq_readings src pids N src.VirtualMemoryInfo (fun r => (r.VMHWM : F)) _
      (fun pid => (contrib_virtualmem src pid N).2.2.2.1) 0
  · exact foldl_eq_readings src pids N src.VirtualMemoryInfo (fun r => (r.VMRSS : F)) _
      (fun pid => (contrib_virtualmem src pid N).2.2.2.2.1) 0
  · exact foldl_eq_readings src pids N src.VirtualMemoryInfo (fun r => (r.VMSwap : F)) _
      (fun pid => (contrib_virtualmem src pid N).2.2.2.2.2) 0

/-- C4. After the loop over any list of pids, each of the six keys
"virtualmem.peak", "virtualmem.size", "virtualmem.lock", "virtualmem.hwm",
"virtualmem.rss", "virtualmem.swap" of the bucket of any name `N` holds the sum
of the field `VMPeak`, `VMSize`, `VMLck`, `VMHWM`, `VMRSS`, `VMSwap`
respectively, each value converted to the type of the values, over exactly
the pids attributed to `N` whose `VirtualMemoryInfo` read succeeded; the sum
is accumulated from zero in the order of the list, in the arithmetic of the
values (for `float64`, with its rounding). -/
theorem C4_virtualmem_field_mapping (src : ProcessSource F) (pids : List Pid) (N : String) :
    bucketAt (aggregated src [] pids) N "virtualmem.peak"
      = accumulate (fun r => (r.VMPeak : F)) (readingsOf src pids N src.VirtualMemoryInfo)
    ∧ bucketAt (aggregated src [] pids) N "virtualmem.size"
      = accumulate (fun r => (r.VMSize : F)) (readingsOf src pids N src.VirtualMemoryInfo)
    ∧ bucketAt (aggregated src [] pids) N "virtualmem.lock"
      = accumulate (fun r => (r.VMLck : F)) (readingsOf src pids N src.VirtualMemoryInfo)
    ∧ bucketAt (aggregated src [] pids) N "virtualmem.hwm"
      = accumulate (fun r => (r.VMHWM : F)) (readingsOf src pids N src.VirtualMemoryInfo)
    ∧ bucketAt (aggregated src [] pids) N "virtualmem.rss"
      = accumulate (fun r => (r.VMRSS : F)) (readingsOf src pids N src.VirtualMemoryInfo)
    ∧ bucketAt (aggregated src [] pids) N "virtualmem.swap"
      = accumulate (fun r => (r.VMSwap : F)) (readingsOf src pids N src.VirtualMemoryInfo) :=
  bucketAt_virtualmem_keys src pids N

/-- Witness of C4, on `bigAndOne` in `float64`: the peaks 9007199254740992 and
1 of the two processes named "nginx" accumulate to 9007199254740992. -/
theorem C4_virtualmem_field_mapping_witness :
    bucketAt (aggregated bigAndOne [] [1, 2]) "nginx" "virtualmem.peak"
      = ((9007199254740992 : ℕ) : float64) :=
  (C4_virtualmem_field_mapping bigAndOne [1, 2] "nginx").1.trans (by decide)

/-! ## C5, C6: the returned error -/

/-- C5. If the listing of the pids fails with error `e`, `Update` returns `e`,
sends no metric, and its only library call is the listing itself: no
per-process read is made. -/
theorem C5_fatal_enumeration (Namespace : String) (src : ProcessSource F)
    (nameOrder : RangeOrder) (sysOrder : String → RangeOrder) (e : Error)
    (h : src.Pids = .error e) :
    (Update Namespace src nameOrder sysOrder).err = some e
    ∧ (Update Namespace src nameOrder sysOrder).emitted = []
    ∧ (Update Namespace src nameOrder sysOrder).calls = [Call.Pids]
    ∧ ∀ c ∈ (Update Namespace src nameOrder sysOrder).calls, c.perProcess = false := by
  simp [Update, h, Call.perProcess]

/-- Witness of C5: a failing listing. -/
theorem C5_fatal_enumeration_witness :
    (Update "node" listingFails RangeOrder.asStored (fun _ => RangeOrder.asStored)).err
      = some "open /proc: permission denied"
    ∧ (Update "node" listingFails RangeOrder.asStored (fun _ => RangeOrder.asStored)).emitted = []
    ∧ (Update "node" listingFails RangeOrder.asStored (fun _ => RangeOrder.asStored)).calls
      = [Call.Pids] :=
  have h := C5_fatal_enumeration "node" listingFails RangeOrder.asStored
    (fun _ => RangeOrder.asStored) "open /proc: permission denied" rfl
  ⟨h.1, h.2.1, h.2.2.1⟩

/-- C6. `Update` returns an error exactly when the listing of the pids failed:
whenever the listing succeeds the result is `nil`, whatever the per-process
calls return. -/
theorem C6_only_enumeration_failure_propagates (Namespace : String) (src : ProcessSource F)
    (nameOrder : RangeOrder) (sysOrder : String → RangeOrder) :
    (∀ pids, src.Pids = .ok pids → (Update Namespace src nameOrder sysOrder).err = none)
    ∧ ((∃ e, (Update Namespace src nameOrder sysOrder).err = some e)
        ↔ ∃ e, src.Pids = .error e) := by
  constructor
  · intro pids hp
    exact (Update_of_ok Namespace src nameOrder sysOrder pids hp).1
  · cases hp : src.Pids with
    | error e => simp [Update, hp]
    | ok pids => simp [Update, hp]

/-- Witness of C6: all per-process calls fail, the listing succeeds. -/
theorem C6_only_enumeration_failure_propagates_witness :
    (Update "node" everyReadFails RangeOrder.asStored (fun _ => RangeOrder.asStored)).err = none :=
  (C6_only_enumeration_failure_propagates "node" everyReadFails RangeOrder.asStored
    (fun _ => RangeOrder.asStored)).1 [1, 2, 3, 4] rfl

/-! ## C7: pids without a name -/

theorem mem_emitted_name (Namespace : String) (src : ProcessSource F) (nameOrder : RangeOrder)
    (sysOrder : String → RangeOrder) (pids : List Pid) (hp : src.Pids = .ok pids) (N : String) :
    (∃ m ∈ (Update Namespace src nameOrder sysOrder).emitted, m.labelValues.head? = some N)
      ↔ N ∈ pids.filterMap (procNameOf src) := by
  rw [(Update_of_ok Namespace src nameOrder sysOrder pids hp).2]
  have hnd := nodup_keys_aggregated_nil src pids
  constructor
  · rintro ⟨m, hm, hh⟩
    obtain ⟨e, he, q, _, rfl⟩ := (mem_buildMetrics Namespace nameOrder sysOrder _ hnd m).1 hm
    simp only [constMetric, List.head?_cons, Option.some.injEq] at hh
    rw [← mem_keys_aggregated_nil, ← hh]
    exact List.mem_map_of_mem Prod.fst he
  · intro hN
    obtain ⟨proc, hl⟩ := lookup_aggregated_of_named src pids N hN
    refine ⟨constMetric Namespace N proc "memory" "used", ?_, rfl⟩
    rw [mem_buildMetrics Namespace nameOrder sysOrder _ hnd]
    exact ⟨(N, proc), mem_of_lookup _ _ _ hl, ("memory", "used"), by decide, rfl⟩

theorem procNameOf_eq_some_iff (src : ProcessSource F) (pid : Pid) (N : String) :
    procNameOf src pid = some N
      ↔ (∃ u, src.NewProcess pid = .ok u) ∧ src.Name pid = .ok N ∧ N ≠ "" := by
  unfold procNameOf
  cases hN : src.NewProcess pid with
  | error e => simp
  | ok u =>
    cases hM : src.Name pid with
    | error e => simp
    | ok nm =>
      by_cases he : nm = ""
      · subst he
        simp only [if_true, Except.ok.injEq]
        constructor
        · intro c; cases c
        · rintro ⟨_, rfl, h⟩; exact absurd rfl h
      · simp only [he, if_false, Option.some.injEq, Except.ok.injEq]
        constructor
        · rintro rfl; exact ⟨⟨u, trivial⟩, rfl, he⟩
        · rintro ⟨_, h, _⟩; exact h

/-- C7. A pid whose name cannot be read, or whose name is the empty string,
leaves the bucket map as it is: no bucket is created and none is changed. So,
when the listing succeeds, the process names carried by the emitted records
are exactly the non-empty names read for some pid of the list, and no record
carries the empty name. -/
theorem C7_name_skip (Namespace : String) (src : ProcessSource F) (nameOrder : RangeOrder)
    (sysOrder : String → RangeOrder) (pids : List Pid) (hp : src.Pids = .ok pids) :
    (∀ (procs : GoMap (procInfo F)) (pid : Pid),
        ((∃ e, src.Name pid = .error e) ∨ src.Name pid = .ok "") →
        (loopBody src procs pid).1 = procs)
    ∧ (∀ N, (∃ m ∈ (Update Namespace src nameOrder sysOrder).emitted,
              m.labelValues.head? = some N)
          ↔ ∃ pid ∈ pids, (∃ u, src.NewProcess pid = .ok u) ∧ src.Name pid = .ok N ∧ N ≠ "")
    ∧ (∀ m ∈ (Update Namespace src nameOrder sysOrder).emitted,
        m.labelValues.head? ≠ some "") := by
  have hiff : ∀ N, (∃ m ∈ (Update Namespace src nameOrder sysOrder).emitted,
              m.labelValues.head? = some N)
          ↔ ∃ pid ∈ pids, (∃ u, src.NewProcess pid = .ok u) ∧ src.Name pid = .ok N ∧ N ≠ "" := by
    intro N
    rw [mem_emitted_name Namespace src nameOrder sysOrder pids hp, List.mem_filterMap]
    simp only [procNameOf_eq_some_iff]
  refine ⟨?_, hiff, ?_⟩
  · intro procs pid h
    apply loopBody_fst_of_no_name
    cases hn : procNameOf src pid with
    | none => rfl
    | some nm =>
      obtain ⟨_, h2, h3⟩ := (procNameOf_eq_some_iff src pid nm).1 hn
      rcases h with ⟨e, he⟩ | he
      · rw [he] at h2; cases h2
      · rw [he] at h2
        exact absurd (Except.ok.inj h2).symm h3
  · intro m hm hh
    obtain ⟨pid, _, _, _, hne⟩ := (hiff "").1 ⟨m, hm, hh⟩
    exact hne rfl

/-- Witness of C7: of four pids, one has no handle, one no name, one the empty
name and one the name "nginx"; only "nginx" labels emitted records. -/
theorem C7_name_skip_witness :
    (loopBody everyReadFails [] 3).1 = []
    ∧ ∀ m ∈ (Update "node" everyReadFails RangeOrder.asStored
        (fun _ => RangeOrder.asStored)).emitted, m.labelValues.head? ≠ some "" :=
  have h := C7_name_skip "node" everyReadFails RangeOrder.asStored
    (fun _ => RangeOrder.asStored) [1, 2, 3, 4] rfl
  ⟨h.1 [] 3 (Or.inr rfl), h.2.2⟩

/-! ## C8: a failed stats read -/

/-- C8. A pid whose `GetStats` read fails leaves the keys "cpu.user",
"cpu.system" and "cpu.total" of every bucket as they were, whatever the
`Times` read would return. -/
theorem C8_cpu_coupling (src : ProcessSource F) (procs : GoMap (procInfo F)) (pid : Pid)
    (n : String) (e : Error) (h : src.GetStats pid = .error e) :
    bucketAt (loopBody src procs pid).1 n "cpu.user" = bucketAt procs n "cpu.user"
    ∧ bucketAt (loopBody src procs pid).1 n "cpu.system" = bucketAt procs n "cpu.system"
    ∧ bucketAt (loopBody src procs pid).1 n "cpu.total" = bucketAt procs n "cpu.total" := by
  cases hn : procNameOf src pid with
  | none => simp [loopBody_fst_of_no_name _ _ _ hn]
  | some nm =>
    simp only [bucketAt_loopBody_of_name _ _ _ _ hn, h]
    cases src.MemoryInfo pid <;> cases src.VirtualMemoryInfo pid <;>
      simp [addMemory, addVirtualMem, bucketAt_addAt, bucketAt_nil]

/-- Witness of C8: the second process of `twoNginx` has a failing `GetStats`
and a succeeding `Times`. -/
theorem C8_cpu_coupling_witness :
    twoNginx.GetStats 2 = .error "denied"
    ∧ twoNginx.Times 2 = .ok ⟨(1 : ℕ), (2 : ℕ), (3 : ℕ)⟩
    ∧ bucketAt (loopBody twoNginx [] 2).1 "nginx" "cpu.user" = bucketAt [] "nginx" "cpu.user"
    ∧ bucketAt (loopBody twoNginx [] 2).1 "nginx" "cpu.system" = bucketAt [] "nginx" "cpu.system"
    ∧ bucketAt (loopBody twoNginx [] 2).1 "nginx" "cpu.total" = bucketAt [] "nginx" "cpu.total" :=
  ⟨rfl, rfl, C8_cpu_coupling twoNginx [] 2 "nginx" "denied" rfl⟩

/-! ## C9: failing virtual-memory reads -/

theorem flatMap_congr_mem {α β : Type} (l : List α) (f g : α → List β)
    (h : ∀ a ∈ l, f a = g a) : l.flatMap f = l.flatMap g := by
  induction l with
  | nil => rfl
  | cons a rest ih =>
    rw [List.flatMap_cons, List.flatMap_cons, h a (List.mem_cons_self _ _),
      ih (fun b hb => h b (List.mem_cons_of_mem _ hb))]

theorem keys_aggregated_congr (src src2 : ProcessSource F)
    (h : ∀ pid, procNameOf src pid = procNameOf src2 pid) (pids : List Pid)
    (procs procs2 : GoMap (procInfo F)) (hk : GoMap.keys procs = GoMap.keys procs2) :
    GoMap.keys (aggregated src procs pids) = GoMap.keys (aggregated src2 procs2 pids) := by
  induction pids generalizing procs procs2 with
  | nil => exact hk
  | cons pid rest ih =>
    rw [aggregated_cons, aggregated_cons]
    apply ih
    cases hn : procNameOf src pid with
    | none =>
      rw [loopBody_fst_of_no_name _ _ _ hn, loopBody_fst_of_no_name _ _ _ ((h pid) ▸ hn)]
      exact hk
    | some nm =>
      rw [keys_loopBody_of_name _ _ _ _ hn, keys_loopBody_of_name _ _ _ _ ((h pid) ▸ hn),
        keys_ensureBucket, keys_ensureBucket, hk]

theorem bucketAt_addVirtualMem_other (procName : String)
    (r : Except Error VirtualMemoryInfoStat) (n k : String) (hk : k ∈ otherKeys) :
    bucketAt (addVirtualMem ([] : GoMap (procInfo F)) procName r) n k = 0 := by
  simp only [otherKeys, List.mem_cons, List.mem_nil_iff, or_false] at hk
  cases r
  · simp [addVirtualMem, bucketAt_nil]
  · rcases hk with rfl | rfl | rfl | rfl <;>
      simp [addVirtualMem, bucketAt_addAt, bucketAt_nil]

theorem bucketAt_aggregated_other (src : ProcessSource F)
    (vm : Pid → Except Error VirtualMemoryInfoStat) (pids : List Pid) (n k : String)
    (hk : k ∈ otherKeys) :
    bucketAt (aggregated { src with VirtualMemoryInfo := vm } [] pids) n k
      = bucketAt (aggregated src [] pids) n k := by
  have hf : ∀ pid, bucketAt (loopBody { src with VirtualMemoryInfo := vm } [] pid).1 n k
      = bucketAt (loopBody src [] pid).1 n k := by
    intro pid
    cases hn : procNameOf src pid with
    | none =>
      have hn2 : procNameOf { src with VirtualMemoryInfo := vm } pid = none := hn
      rw [loopBody_fst_of_no_name _ _ _ hn, loopBody_fst_of_no_name _ _ _ hn2]
    | some nm =>
      have hn2 : procNameOf { src with VirtualMemoryInfo := vm } pid = some nm := hn
      rw [bucketAt_loopBody_of_name _ _ _ _ hn, bucketAt_loopBody_of_name _ _ _ _ hn2,
        bucketAt_addVirtualMem_other _ _ _ _ hk, bucketAt_addVirtualMem_other _ _ _ _ hk]
  rw [bucketAt_aggregated, bucketAt_aggregated]
  simp only [hf]

theorem readingsOf_eq_nil {α : Type} (src : ProcessSource F) (pids : List Pid) (N : String)
    (read : Pid → Except Error α)
    (h : ∀ pid ∈ pids, procNameOf src pid = some N → ∃ e, read pid = .error e) :
    readingsOf src pids N read = [] := by
  unfold readingsOf
  rw [List.filterMap_eq_nil_iff]
  intro pid hpid
  by_cases hn : procNameOf src pid = some N
  · obtain ⟨e, he⟩ := h pid hpid hn
    simp [hn, he, Except.toOption]
  · simp [hn]

theorem mem_virtualmem_pairs (q : String × String) (hq : q ∈ schemaPairs)
    (h1 : q.1 = "virtualmem") :
    q.2 = "peak" ∨ q.2 = "size" ∨ q.2 = "lock" ∨ q.2 = "hwm" ∨ q.2 = "rss" ∨ q.2 = "swap" := by
  obtain ⟨a, b⟩ := q
  simp only [schemaPairs, visibleStatNames, List.flatMap_cons, List.flatMap_nil, List.map_cons,
    List.map_nil, List.append_nil, List.cons_append, List.nil_append, List.mem_cons,
    Prod.mk.injEq, List.mem_nil_iff, or_false] at hq
  simp only at h1
  subst h1
  rcases hq with ⟨h, _⟩ | ⟨h, _⟩ | ⟨h, _⟩ | ⟨h, _⟩ | ⟨_, h⟩ | ⟨_, h⟩
      | ⟨_, h⟩ | ⟨_, h⟩ | ⟨_, h⟩ | ⟨_, h⟩
  · exact absurd h (by decide)
  · exact absurd h (by decide)
  · exact absurd h (by decide)
  · exact absurd h (by decide)
  all_goals simp [h]

/-- The records of a process name outside the "virtualmem" family depend only
on the key list of the bucket map and on its values at the other keys. -/
theorem filter_other_buildMetrics (Namespace : String) (nameOrder : RangeOrder)
    (sysOrder : String → RangeOrder) (procs procs2 : GoMap (procInfo F))
    (hk : GoMap.keys procs2 = GoMap.keys procs)
    (hv : ∀ n k, k ∈ otherKeys → bucketAt procs2 n k = bucketAt procs n k) (N : String) :
    (buildMetrics Namespace nameOrder sysOrder procs2).filter
        (fun m => decide (m.labelValues.head? = some N
          ∧ m.desc.fqName ≠ BuildFQName Namespace "process" "virtualmem"))
      = (buildMetrics Namespace nameOrder sysOrder procs).filter
        (fun m => decide (m.labelValues.head? = some N
          ∧ m.desc.fqName ≠ BuildFQName Namespace "process" "virtualmem")) := by
  unfold buildMetrics
  rw [hk, List.filter_flatMap, List.filter_flatMap]
  apply flatMap_congr_mem
  intro n _
  unfold bucketMetrics
  rw [List.filter_flatMap, List.filter_flatMap]
  apply flatMap_congr_mem
  intro sys hsys
  have hmem : sys ∈ GoMap.keys visibleStatNames := ((sysOrder n).visit_perm _).mem_iff.1 hsys
  have h1 : procInfo.index ((GoMap.lookup procs2 n).getD []) "memory.used"
      = procInfo.index ((GoMap.lookup procs n).getD []) "memory.used" :=
    hv n "memory.used" (by decide)
  have h2 : procInfo.index ((GoMap.lookup procs2 n).getD []) "cpu.total"
      = procInfo.index ((GoMap.lookup procs n).getD []) "cpu.total" :=
    hv n "cpu.total" (by decide)
  have h3 : procInfo.index ((GoMap.lookup procs2 n).getD []) "cpu.user"
      = procInfo.index ((GoMap.lookup procs n).getD []) "cpu.user" :=
    hv n "cpu.user" (by decide)
  have h4 : procInfo.index ((GoMap.lookup procs2 n).getD []) "cpu.system"
      = procInfo.index ((GoMap.lookup procs n).getD []) "cpu.system" :=
    hv n "cpu.system" (by decide)
  simp only [GoMap.keys, visibleStatNames, List.map_cons, List.map_nil, List.mem_cons,
    List.mem_nil_iff, or_false] at hmem
  rcases hmem with rfl | rfl | rfl
  · simp [systemMetrics, visibleStatNames, GoMap.lookup, constMetric, h1]
  · simp [systemMetrics, visibleStatNames, GoMap.lookup, constMetric, h2, h3, h4]
  · simp [systemMetrics, visibleStatNames, GoMap.lookup, constMetric, systemDesc,
      List.filter_cons]

/-- C9. Suppose the listing succeeds and the `VirtualMemoryInfo` read fails for
every pid attributed to the name `N`. Then every record emitted for `N` in the
"virtualmem" family has value 0 (and there are six of them when `N` has a
bucket), and the records emitted for `N` in the other families are the ones
emitted when the `VirtualMemoryInfo` reads return anything else, successes
included. -/
theorem C9_zero_default (Namespace : String) (src : ProcessSource F) (nameOrder : RangeOrder)
    (sysOrder : String → RangeOrder) (pids : List Pid) (N : String)
    (hp : src.Pids = .ok pids)
    (hvm : ∀ pid ∈ pids, procNameOf src pid = some N →
      ∃ e, src.VirtualMemoryInfo pid = .error e) :
    (∀ m ∈ (Update Namespace src nameOrder sysOrder).emitted,
        m.labelValues.head? = some N →
        m.desc.fqName = BuildFQName Namespace "process" "virtualmem" → m.value = 0)
    ∧ (N ∈ pids.filterMap (procNameOf src) →
        (Update Namespace src nameOrder sysOrder).emitted.countP
          (fun m => decide (m.labelValues.head? = some N
            ∧ m.desc.fqName = BuildFQName Namespace "process" "virtualmem")) = 6)
    ∧ (∀ vm : Pid → Except Error VirtualMemoryInfoStat,
        (Update Namespace { src with VirtualMemoryInfo := vm } nameOrder sysOrder).emitted.filter
            (fun m => decide (m.labelValues.head? = some N
              ∧ m.desc.fqName ≠ BuildFQName Namespace "process" "virtualmem"))
          = (Update Namespace src nameOrder sysOrder).emitted.filter
            (fun m => decide (m.labelValues.head? = some N
              ∧ m.desc.fqName ≠ BuildFQName Namespace "process" "virtualmem"))) := by
  have hnd := nodup_keys_aggregated_nil src pids
  have hnil := readingsOf_eq_nil src pids N src.VirtualMemoryInfo hvm
  have hkeys := bucketAt_virtualmem_keys src pids N
  simp only [hnil, accumulate, List.foldl_nil] at hkeys
  refine ⟨?_, ?_, ?_⟩
  · rw [(Update_of_ok Namespace src nameOrder sysOrder pids hp).2]
    intro m hm hname hfam
    obtain ⟨e, he, q, hq, rfl⟩ := (mem_buildMetrics Namespace nameOrder sysOrder _ hnd m).1 hm
    simp only [constMetric, List.head?_cons, Option.some.injEq] at hname
    simp only [constMetric, systemDesc, BuildFQName_process_inj] at hfam
    have hl := lookup_of_mem_nodup _ hnd e he
    rw [hname] at hl
    have hval : ∀ k, procInfo.index e.2 k = bucketAt (aggregated src [] pids) N k := by
      intro k
      simp [bucketAt, hl]
    simp only [constMetric, hval, hfam]
    rcases mem_virtualmem_pairs q hq hfam with h | h | h | h | h | h <;> rw [h]
    · exact hkeys.1
    · exact hkeys.2.1
    · exact hkeys.2.2.1
    · exact hkeys.2.2.2.1
    · exact hkeys.2.2.2.2.1
    · exact hkeys.2.2.2.2.2
  · intro hN
    obtain ⟨proc, hl⟩ := lookup_aggregated_of_named src pids N hN
    rw [(Update_of_ok Namespace src nameOrder sysOrder pids hp).2,
      List.countP_eq_length_filter,
      (filter_buildMetrics_perm Namespace nameOrder sysOrder _ hnd N proc hl _ _
        (filter_name_system_bucket Namespace N "virtualmem")).length_eq, List.length_map]
    decide
  · intro vm
    have hp2 : ({ src with VirtualMemoryInfo := vm } : ProcessSource F).Pids = .ok pids := hp
    rw [(Update_of_ok Namespace src nameOrder sysOrder pids hp).2,
      (Update_of_ok Namespace _ nameOrder sysOrder pids hp2).2]
    apply filter_other_buildMetrics
    · exact keys_aggregated_congr { src with VirtualMemoryInfo := vm } src
        (fun _ => rfl) pids [] [] rfl
    · intro n k hk
      exact bucketAt_aggregated_other src vm pids n k hk

/-- Witness of C9: in `twoNginx` every `VirtualMemoryInfo` read fails; the
records of "nginx" outside the "virtualmem" family are those of the pass in
which these reads succeed. -/
theorem C9_zero_default_witness :
    (∀ pid ∈ [(1 : Pid), 2], procNameOf twoNginx pid = some "nginx" →
      ∃ e, twoNginx.VirtualMemoryInfo pid = .error e)
    ∧ (∀ m ∈ (Update "node" twoNginx RangeOrder.asStored
          (fun _ => RangeOrder.reversed)).emitted,
        m.labelValues.head? = some "nginx" →
        m.desc.fqName = BuildFQName "node" "process" "virtualmem" → m.value = 0)
    ∧ (Update "node" { twoNginx with VirtualMemoryInfo := vmReadable } RangeOrder.asStored
          (fun _ => RangeOrder.reversed)).emitted.filter
          (fun m => decide (m.labelValues.head? = some "nginx"
            ∧ m.desc.fqName ≠ BuildFQName "node" "process" "virtualmem"))
        = (Update "node" twoNginx RangeOrder.asStored
            (fun _ => RangeOrder.reversed)).emitted.filter
          (fun m => decide (m.labelValues.head? = some "nginx"
            ∧ m.desc.fqName ≠ BuildFQName "node" "process" "virtualmem")) :=
  have hv : ∀ pid ∈ [(1 : Pid), 2], procNameOf twoNginx pid = some "nginx" →
      ∃ e, twoNginx.VirtualMemoryInfo pid = .error e :=
    fun _ _ _ => ⟨"denied", rfl⟩
  have h := C9_zero_default "node" twoNginx RangeOrder.asStored (fun _ => RangeOrder.reversed)
    [1, 2] "nginx" rfl hv
  ⟨hv, h.1, h.2.2 vmReadable⟩

/-! ## C10, C11: where the CPU values come from -/

/-- What one pid adds to the three "cpu" keys of the bucket `N`. -/
theorem contrib_cpu_keys (src : ProcessSource F) (pid : Pid) (N : String) :
    (bucketAt (loopBody src [] pid).1 N "cpu.user"
      = if procNameOf src pid = some N then
          (((src.GetStats pid).toOption.bind fun st =>
            (src.Times pid).toOption.map fun _ => st.UserTime).getD 0) else 0)
    ∧ (bucketAt (loopBody src [] pid).1 N "cpu.system"
      = if procNameOf src pid = some N then
          (((src.GetStats pid).toOption.bind fun _ =>
            (src.Times pid).toOption.map fun ts => ts.System).getD 0) else 0)
    ∧ (bucketAt (loopBody src [] pid).1 N "cpu.total"
      = if procNameOf src pid = some N then
          (((src.GetStats pid).toOption.bind fun _ =>
            (src.Times pid).toOption.map fun ts => ts.Total).getD 0) else 0) := by
  cases h : procNameOf src pid with
  | none => simp [loopBody_fst_of_no_name _ _ _ h, bucketAt_nil]
  | some nm =>
    simp only [bucketAt_loopBody_of_name _ _ _ _ h]
    cases src.MemoryInfo pid <;> cases src.VirtualMemoryInfo pid <;>
      cases src.GetStats pid <;> cases src.Times pid <;>
      simp [addMemory, addVirtualMem, addCpu, bucketAt_addAt, bucketAt_nil, Except.toOption]

/-- C10. The code at `statsAhead`: for pid 1 the stats read and the times
read both succeed and the times read reports the user time 7, yet "cpu.user"
of the bucket "nginx" grows by 700, the `UserTime` of the stats read (line
83), and the record ("cpu", "user", "nginx") has the value 700. -/
theorem C10_cpu_user_not_from_times :
    procNameOf statsAhead 1 = some "nginx"
    ∧ statsAhead.GetStats 1 = .ok ⟨(700 : ℕ)⟩
    ∧ statsAhead.Times 1 = .ok ⟨(7 : ℕ), (2 : ℕ), (9 : ℕ)⟩
    ∧ bucketAt (loopBody statsAhead [] 1).1 "nginx" "cpu.user"
        = bucketAt [] "nginx" "cpu.user" + ((700 : ℕ) : float64)
    ∧ bucketAt (loopBody statsAhead [] 1).1 "nginx" "cpu.user"
        ≠ bucketAt [] "nginx" "cpu.user" + ((7 : ℕ) : float64)
    ∧ ((Update "node" statsAhead RangeOrder.asStored (fun _ => RangeOrder.asStored)).emitted.filter
          (fun m => decide (Metric.isSeries "node" m "cpu" "user" "nginx"))).map
        (fun m => m.value) = [((700 : ℕ) : float64)] :=
  ⟨by decide, rfl, rfl, by decide, by decide, by decide⟩

/-- C11. The code at `statsAhead`: the three records of the family of "cpu"
for "nginx" are total 9, user 700 and system 2, so the total is not the sum
of user and system: "cpu.user" comes from the stats read (line 83) while
"cpu.system" and "cpu.total" come from the times read (lines 84-85). -/
theorem C11_total_not_user_plus_system :
    ((Update "node" statsAhead RangeOrder.asStored (fun _ => RangeOrder.asStored)).emitted.filter
        (fun m => decide (m.desc.fqName = "node_process_cpu"))).map
      (fun m => (m.labelValues, m.value))
      = [(["nginx", "total"], ((9 : ℕ) : float64)),
         (["nginx", "user"], ((700 : ℕ) : float64)),
         (["nginx", "system"], ((2 : ℕ) : float64))]
    ∧ ((9 : ℕ) : float64) ≠ ((700 : ℕ) : float64) + ((2 : ℕ) : float64)
    ∧ bucketAt (loopBody statsAhead [] 1).1 "nginx" "cpu.total"
        ≠ bucketAt (loopBody statsAhead [] 1).1 "nginx" "cpu.user"
          + bucketAt (loopBody statsAhead [] 1).1 "nginx" "cpu.system" := by
  decide

/-! ## C12: a process for which every read fails -/

theorem foldl_add_of_zero {α : Type} (l : List α) (g : α → F) (a : F)
    (h : ∀ x ∈ l, g x = 0) : l.foldl (fun acc x => acc + g x) a = a := by
  induction l generalizing a with
  | nil => rfl
  | cons x rest ih =>
    rw [List.foldl_cons, h x (List.mem_cons_self _ _), add_zero]
    exact ih a (fun y hy => h y (List.mem_cons_of_mem _ hy))

theorem bucketAt_loopBody_of_other_name (src : ProcessSource F) (pid : Pid) (N k : String)
    (h : procNameOf src pid ≠ some N) : bucketAt (loopBody src [] pid).1 N k = 0 := by
  cases hn : procNameOf src pid with
  | none => rw [loopBody_fst_of_no_name _ _ _ hn, bucketAt_nil]
  | some nm =>
    have hne : ¬ nm = N := fun c => h (by rw [hn, c])
    rw [bucketAt_loopBody_of_name _ _ _ _ hn]
    cases src.MemoryInfo pid <;> cases src.VirtualMemoryInfo pid <;>
      cases src.GetStats pid <;> cases src.Times pid <;>
      simp [addMemory, addVirtualMem, addCpu, bucketAt_addAt, bucketAt_nil, hne]

theorem bucketAt_loopBody_all_fail (src : ProcessSource F) (pid : Pid) (n k : String)
    (hm : ∃ e, src.MemoryInfo pid = .error e)
    (hv : ∃ e, src.VirtualMemoryInfo pid = .error e)
    (hs : ∃ e, src.GetStats pid = .error e) :
    bucketAt (loopBody src [] pid).1 n k = 0 := by
  obtain ⟨e1, hm⟩ := hm
  obtain ⟨e2, hv⟩ := hv
  obtain ⟨e3, hs⟩ := hs
  cases hn : procNameOf src pid with
  | none => rw [loopBody_fst_of_no_name _ _ _ hn, bucketAt_nil]
  | some nm =>
    rw [bucketAt_loopBody_of_name _ _ _ _ hn, hm, hv, hs]
    simp [addMemory, addVirtualMem, bucketAt_nil]

theorem mem_keys_loopBody_of_name (src : ProcessSource F) (procs : GoMap (procInfo F)) (pid : Pid)
    (N : String) (hn : procNameOf src pid = some N) :
    N ∈ GoMap.keys (loopBody src procs pid).1 :=
  (mem_keys_loopBody src procs pid N).2 (Or.inr hn)

theorem value_of_emitted_name (Namespace : String) (src : ProcessSource F)
    (nameOrder : RangeOrder) (sysOrder : String → RangeOrder) (pids : List Pid)
    (hp : src.Pids = .ok pids) (N : String) (m : Metric F)
    (hm : m ∈ (Update Namespace src nameOrder sysOrder).emitted)
    (hname : m.labelValues.head? = some N) :
    ∃ q ∈ schemaPairs, m.desc = systemDesc Namespace q.1 ∧ m.labelValues = [N, q.2]
      ∧ m.valueType = ValueType.GaugeValue
      ∧ m.value = bucketAt (aggregated src [] pids) N (q.1 ++ "." ++ q.2) := by
  have hnd := nodup_keys_aggregated_nil src pids
  rw [(Update_of_ok Namespace src nameOrder sysOrder pids hp).2] at hm
  obtain ⟨e, he, q, hq, rfl⟩ := (mem_buildMetrics Namespace nameOrder sysOrder _ hnd m).1 hm
  simp only [constMetric, List.head?_cons, Option.some.injEq] at hname
  have hl := lookup_of_mem_nodup _ hnd e he
  rw [hname] at hl
  refine ⟨q, hq, rfl, by simp [constMetric, hname], rfl, ?_⟩
  simp [constMetric, bucketAt, hl]

theorem countP_name_emitted (Namespace : String) (src : ProcessSource F)
    (nameOrder : RangeOrder) (sysOrder : String → RangeOrder) (pids : List Pid)
    (hp : src.Pids = .ok pids) (N : String) (hN : N ∈ pids.filterMap (procNameOf src)) :
    (Update Namespace src nameOrder sysOrder).emitted.countP
      (fun m => decide (m.labelValues.head? = some N)) = 10 := by
  obtain ⟨proc, hl⟩ := lookup_aggregated_of_named src pids N hN
  rw [(Update_of_ok Namespace src nameOrder sysOrder pids hp).2, List.countP_eq_length_filter,
    (filter_buildMetrics_perm Namespace nameOrder sysOrder _ (nodup_keys_aggregated_nil src pids)
      N proc hl _ _ (filter_name_bucket Namespace N)).length_eq, List.length_map]
  decide

/-- C12. A pid with a non-empty name `N` whose `MemoryInfo`,
`VirtualMemoryInfo`, `GetStats` and `Times` reads all fail still gets a bucket
for `N`; when the listing succeeds and no other pid of the list is attributed
to `N`, exactly ten records are emitted for `N`, all of value 0. -/
theorem C12_no_filtering (Namespace : String) (src : ProcessSource F) (nameOrder : RangeOrder)
    (sysOrder : String → RangeOrder) (pids : List Pid) (pid : Pid) (N : String)
    (hp : src.Pids = .ok pids) (hpid : pid ∈ pids) (hn : procNameOf src pid = some N)
    (hm : ∃ e, src.MemoryInfo pid = .error e)
    (hv : ∃ e, src.VirtualMemoryInfo pid = .error e)
    (hs : ∃ e, src.GetStats pid = .error e)
    (_ht : ∃ e, src.Times pid = .error e)
    (honly : ∀ pid2 ∈ pids, procNameOf src pid2 = some N → pid2 = pid) :
    (∀ procs : GoMap (procInfo F), N ∈ GoMap.keys (loopBody src procs pid).1)
    ∧ (Update Namespace src nameOrder sysOrder).emitted.countP
        (fun m => decide (m.labelValues.head? = some N)) = 10
    ∧ (∀ m ∈ (Update Namespace src nameOrder sysOrder).emitted,
        m.labelValues.head? = some N → m.value = 0) := by
  have hN : N ∈ pids.filterMap (procNameOf src) := List.mem_filterMap.2 ⟨pid, hpid, hn⟩
  refine ⟨fun procs => mem_keys_loopBody_of_name src procs pid N hn,
    countP_name_emitted Namespace src nameOrder sysOrder pids hp N hN, ?_⟩
  intro m hmem hname
  obtain ⟨q, _, _, _, _, hval⟩ :=
    value_of_emitted_name Namespace src nameOrder sysOrder pids hp N m hmem hname
  rw [hval, bucketAt_aggregated, bucketAt_nil]
  apply foldl_add_of_zero
  intro pid2 hpid2
  by_cases h2 : procNameOf src pid2 = some N
  · rw [honly pid2 hpid2 h2]
    exact bucketAt_loopBody_all_fail src pid _ _ hm hv hs
  · exact bucketAt_loopBody_of_other_name src pid2 _ _ h2

/-- Witness of C12: pid 4 of `everyReadFails` is the only one named "nginx",
and all its reads fail. -/
theorem C12_no_filtering_witness :
    (Update "node" everyReadFails RangeOrder.asStored (fun _ => RangeOrder.asStored)).emitted.countP
        (fun m => decide (m.labelValues.head? = some "nginx")) = 10
    ∧ (∀ m ∈ (Update "node" everyReadFails RangeOrder.asStored
          (fun _ => RangeOrder.asStored)).emitted,
        m.labelValues.head? = some "nginx" → m.value = 0) :=
  (C12_no_filtering "node" everyReadFails RangeOrder.asStored (fun _ => RangeOrder.asStored)
    [1, 2, 3, 4] 4 "nginx" rfl (by decide) (by decide) ⟨"denied", rfl⟩ ⟨"denied", rfl⟩
    ⟨"denied", rfl⟩ ⟨"denied", rfl⟩ (by decide)).2

/-! ## C13, C16: the read groups -/

/-- What a pid with bucket name `N` adds to the memory key and to the six
virtual-memory keys of its bucket: a function of the `MemoryInfo` result
alone, respectively of the `VirtualMemoryInfo` result alone. -/
theorem bucketAt_loopBody_memory_vm (src : ProcessSource F) (procs : GoMap (procInfo F))
    (pid : Pid) (N : String) (hn : procNameOf src pid = some N) :
    bucketAt (loopBody src procs pid).1 N "memory.used"
      = bucketAt procs N "memory.used"
        + ((src.MemoryInfo pid).toOption.map fun r => (r.RSS : F)).getD 0
    ∧ bucketAt (loopBody src procs pid).1 N "virtualmem.peak"
      = bucketAt procs N "virtualmem.peak"
        + ((src.VirtualMemoryInfo pid).toOption.map fun r => (r.VMPeak : F)).getD 0
    ∧ bucketAt (loopBody src procs pid).1 N "virtualmem.size"
      = bucketAt procs N "virtualmem.size"
        + ((src.VirtualMemoryInfo pid).toOption.map fun r => (r.VMSize : F)).getD 0
    ∧ bucketAt (loopBody src procs pid).1 N "virtualmem.lock"
      = bucketAt procs N "virtualmem.lock"
        + ((src.VirtualMemoryInfo pid).toOption.map fun r => (r.VMLck : F)).getD 0
    ∧ bucketAt (loopBody src procs pid).1 N "virtualmem.hwm"
      = bucketAt procs N "virtualmem.hwm"
        + ((src.VirtualMemoryInfo pid).toOption.map fun r => (r.VMHWM : F)).getD 0
    ∧ bucketAt (loopBody src procs pid).1 N "virtualmem.rss"
      = bucketAt procs N "virtualmem.rss"
        + ((src.VirtualMemoryInfo pid).toOption.map fun r => (r.VMRSS : F)).getD 0
    ∧ bucketAt (loopBody src procs pid).1 N "virtualmem.swap"
      = bucketAt procs N "virtualmem.swap"
        + ((src.VirtualMemoryInfo pid).toOption.map fun r => (r.VMSwap : F)).getD 0 := by
  have hv := contrib_virtualmem src pid N
  simp only [hn, if_true] at hv
  have hm := contrib_memory_used src pid N
  simp only [hn, if_true] at hm
  refine ⟨?_, ?_, ?_, ?_, ?_, ?_, ?_⟩
  · rw [bucketAt_loopBody, hm]
  · rw [bucketAt_loopBody, hv.1]
  · rw [bucketAt_loopBody, hv.2.1]
  · rw [bucketAt_loopBody, hv.2.2.1]
  · rw [bucketAt_loopBody, hv.2.2.2.1]
  · rw [bucketAt_loopBody, hv.2.2.2.2.1]
  · rw [bucketAt_loopBody, hv.2.2.2.2.2]

/-- What a pid with bucket name `N` adds to the three "cpu" keys of its
bucket: a function of the results of `GetStats` and `Times` alone. -/
theorem bucketAt_loopBody_cpu (src : ProcessSource F) (procs : GoMap (procInfo F))
    (pid : Pid) (N : String) (hn : procNameOf src pid = some N) :
    bucketAt (loopBody src procs pid).1 N "cpu.user"
      = bucketAt procs N "cpu.user"
        + ((src.GetStats pid).toOption.bind fun st =>
            (src.Times pid).toOption.map fun _ => st.UserTime).getD 0
    ∧ bucketAt (loopBody src procs pid).1 N "cpu.system"
      = bucketAt procs N "cpu.system"
        + ((src.GetStats pid).toOption.bind fun _ =>
            (src.Times pid).toOption.map fun ts => ts.System).getD 0
    ∧ bucketAt (loopBody src procs pid).1 N "cpu.total"
      = bucketAt procs N "cpu.total"
        + ((src.GetStats pid).toOption.bind fun _ =>
            (src.Times pid).toOption.map fun ts => ts.Total).getD 0 := by
  have hc := contrib_cpu_keys src pid N
  simp only [hn, if_true] at hc
  refine ⟨?_, ?_, ?_⟩
  · rw [bucketAt_loopBody, hc.1]
  · rw [bucketAt_loopBody, hc.2.1]
  · rw [bucketAt_loopBody, hc.2.2]

/-- C13. For a pid with a bucket name `N`, the amount added to "memory.used"
is determined by the result of `MemoryInfo` alone (its `RSS` on success, 0 on
failure), the amounts added to the six "virtualmem" keys by the result of
`VirtualMemoryInfo` alone, and the amounts added to the three "cpu" keys by
the results of `GetStats` and `Times` alone. So a failing stats or times read
does not touch the memory and virtual-memory contributions, and a failing
memory read does not touch the virtual-memory and CPU contributions. -/
theorem C13_read_groups_independent (src : ProcessSource F) (procs : GoMap (procInfo F))
    (pid : Pid) (N : String) (hn : procNameOf src pid = some N) :
    (bucketAt (loopBody src procs pid).1 N "memory.used"
      = bucketAt procs N "memory.used"
        + ((src.MemoryInfo pid).toOption.map fun r => (r.RSS : F)).getD 0
    ∧ bucketAt (loopBody src procs pid).1 N "virtualmem.peak"
      = bucketAt procs N "virtualmem.peak"
        + ((src.VirtualMemoryInfo pid).toOption.map fun r => (r.VMPeak : F)).getD 0
    ∧ bucketAt (loopBody src procs pid).1 N "virtualmem.size"
      = bucketAt procs N "virtualmem.size"
        + ((src.VirtualMemoryInfo pid).toOption.map fun r => (r.VMSize : F)).getD 0
    ∧ bucketAt (loopBody src procs pid).1 N "virtualmem.lock"
      = bucketAt procs N "virtualmem.lock"
        + ((src.VirtualMemoryInfo pid).toOption.map fun r => (r.VMLck : F)).getD 0
    ∧ bucketAt (loopBody src procs pid).1 N "virtualmem.hwm"
      = bucketAt procs N "virtualmem.hwm"
        + ((src.VirtualMemoryInfo pid).toOption.map fun r => (r.VMHWM : F)).getD 0
    ∧ bucketAt (loopBody src procs pid).1 N "virtualmem.rss"
      = bucketAt procs N "virtualmem.rss"
        + ((src.VirtualMemoryInfo pid).toOption.map fun r => (r.VMRSS : F)).getD 0
    ∧ bucketAt (loopBody src procs pid).1 N "virtualmem.swap"
      = bucketAt procs N "virtualmem.swap"
        + ((src.VirtualMemoryInfo pid).toOption.map fun r => (r.VMSwap : F)).getD 0)
    ∧ (bucketAt (loopBody src procs pid).1 N "cpu.user"
      = bucketAt procs N "cpu.user"
        + ((src.GetStats pid).toOption.bind fun st =>
            (src.Times pid).toOption.map fun _ => st.UserTime).getD 0
    ∧ bucketAt (loopBody src procs pid).1 N "cpu.system"
      = bucketAt procs N "cpu.system"
        + ((src.GetStats pid).toOption.bind fun _ =>
            (src.Times pid).toOption.map fun ts => ts.System).getD 0
    ∧ bucketAt (loopBody src procs pid).1 N "cpu.total"
      = bucketAt procs N "cpu.total"
        + ((src.GetStats pid).toOption.bind fun _ =>
            (src.Times pid).toOption.map fun ts => ts.Total).getD 0) :=
  ⟨bucketAt_loopBody_memory_vm src procs pid N hn, bucketAt_loopBody_cpu src procs pid N hn⟩

/-- Witness of C13: the second process of `twoNginx` has a failing stats read
and resident memory 50; the first has a failing virtual-memory read and CPU
times. -/
theorem C13_read_groups_independent_witness :
    bucketAt (loopBody twoNginx [] 2).1 "nginx" "memory.used"
      = bucketAt [] "nginx" "memory.used"
        + ((twoNginx.MemoryInfo 2).toOption.map fun r => (r.RSS : float64)).getD 0
    ∧ bucketAt (loopBody twoNginx [] 1).1 "nginx" "cpu.system"
      = bucketAt [] "nginx" "cpu.system"
        + ((twoNginx.GetStats 1).toOption.bind fun _ =>
            (twoNginx.Times 1).toOption.map fun ts => ts.System).getD 0 :=
  ⟨(C13_read_groups_independent twoNginx [] 2 "nginx" (by decide)).1.1,
    (C13_read_groups_independent twoNginx [] 1 "nginx" (by decide)).2.2.1⟩

/-- C16. A pid with bucket name `N` whose `GetStats` read succeeds and whose
`Times` read fails leaves "cpu.user", "cpu.system" and "cpu.total" of every
bucket as they were, while "memory.used" and the six "virtualmem" keys of the
bucket `N` receive what the `MemoryInfo` and `VirtualMemoryInfo` reads
returned. -/
theorem C16_times_failure (src : ProcessSource F) (procs : GoMap (procInfo F)) (pid : Pid)
    (N : String) (stats : ProcessStats F) (e : Error) (hn : procNameOf src pid = some N)
    (hs : src.GetStats pid = .ok stats) (ht : src.Times pid = .error e) :
    (∀ n, bucketAt (loopBody src procs pid).1 n "cpu.user" = bucketAt procs n "cpu.user"
      ∧ bucketAt (loopBody src procs pid).1 n "cpu.system" = bucketAt procs n "cpu.system"
      ∧ bucketAt (loopBody src procs pid).1 n "cpu.total" = bucketAt procs n "cpu.total")
    ∧ bucketAt (loopBody src procs pid).1 N "memory.used"
      = bucketAt procs N "memory.used"
        + ((src.MemoryInfo pid).toOption.map fun r => (r.RSS : F)).getD 0
    ∧ bucketAt (loopBody src procs pid).1 N "virtualmem.peak"
      = bucketAt procs N "virtualmem.peak"
        + ((src.VirtualMemoryInfo pid).toOption.map fun r => (r.VMPeak : F)).getD 0
    ∧ bucketAt (loopBody src procs pid).1 N "virtualmem.size"
      = bucketAt procs N "virtualmem.size"
        + ((src.VirtualMemoryInfo pid).toOption.map fun r => (r.VMSize : F)).getD 0
    ∧ bucketAt (loopBody src procs pid).1 N "virtualmem.lock"
      = bucketAt procs N "virtualmem.lock"
        + ((src.VirtualMemoryInfo pid).toOption.map fun r => (r.VMLck : F)).getD 0
    ∧ bucketAt (loopBody src procs pid).1 N "virtualmem.hwm"
      = bucketAt procs N "virtualmem.hwm"
        + ((src.VirtualMemoryInfo pid).toOption.map fun r => (r.VMHWM : F)).getD 0
    ∧ bucketAt (loopBody src procs pid).1 N "virtualmem.rss"
      = bucketAt procs N "virtualmem.rss"
        + ((src.VirtualMemoryInfo pid).toOption.map fun r => (r.VMRSS : F)).getD 0
    ∧ bucketAt (loopBody src procs pid).1 N "virtualmem.swap"
      = bucketAt procs N "virtualmem.swap"
        + ((src.VirtualMemoryInfo pid).toOption.map fun r => (r.VMSwap : F)).getD 0 := by
  refine ⟨?_, bucketAt_loopBody_memory_vm src procs pid N hn⟩
  intro n
  have hc := contrib_cpu_keys src pid n
  simp only [hs, ht, Except.toOption, Option.map_none', Option.bind_some, Option.some_bind,
    Option.getD_none, ite_self] at hc
  refine ⟨?_, ?_, ?_⟩
  · rw [bucketAt_loopBody, hc.1, add_zero]
  · rw [bucketAt_loopBody, hc.2.1, add_zero]
  · rw [bucketAt_loopBody, hc.2.2, add_zero]

/-- Witness of C16, on `timesFails`. -/
theorem C16_times_failure_witness :
    bucketAt (loopBody timesFails [] 1).1 "nginx" "cpu.user" = bucketAt [] "nginx" "cpu.user"
    ∧ bucketAt (loopBody timesFails [] 1).1 "nginx" "memory.used"
      = bucketAt [] "nginx" "memory.used"
        + ((timesFails.MemoryInfo 1).toOption.map fun r => (r.RSS : float64)).getD 0 :=
  have h := C16_times_failure timesFails [] 1 "nginx" ⟨(700 : ℕ)⟩ "denied" (by decide) rfl rfl
  ⟨(h.1 "nginx").1, h.2.1⟩

/-! ## C14: shape of an emitted record -/

/-- C14. When the listing succeeds and `Namespace` is not empty, every emitted
record is the record of a process name `N` that received a bucket and of a
subsystem `s` of a system of the table: its family name is
`Namespace + "_process_" + system`, its help string is the fixed one, its
labels are `name` and `type`, in this order, with values `N` and `s`, it has
no constant label, and its value type is the gauge type. -/
theorem C14_emission_shape (Namespace : String) (src : ProcessSource F)
    (nameOrder : RangeOrder) (sysOrder : String → RangeOrder) (pids : List Pid)
    (hp : src.Pids = .ok pids) (hns : Namespace ≠ "") :
    ∀ m ∈ (Update Namespace src nameOrder sysOrder).emitted,
      ∃ N system s, N ∈ pids.filterMap (procNameOf src) ∧ (system, s) ∈ schemaPairs
        ∧ m.desc.fqName = Namespace ++ "_process_" ++ system
        ∧ m.desc.help = "Labeled per process cpu and memory information."
        ∧ m.desc.variableLabels = ["name", "type"]
        ∧ m.desc.constLabels = []
        ∧ m.labelValues = [N, s]
        ∧ List.zip m.desc.variableLabels m.labelValues = [("name", N), ("type", s)]
        ∧ m.valueType = ValueType.GaugeValue := by
  intro m hm
  have hnd := nodup_keys_aggregated_nil src pids
  rw [(Update_of_ok Namespace src nameOrder sysOrder pids hp).2] at hm
  obtain ⟨e, he, q, hq, rfl⟩ := (mem_buildMetrics Namespace nameOrder sysOrder _ hnd m).1 hm
  have hN : e.1 ∈ pids.filterMap (procNameOf src) :=
    (mem_keys_aggregated_nil src pids e.1).1 (List.mem_map_of_mem Prod.fst he)
  have hsys : q.1 ≠ "" := by
    have hall : ∀ q ∈ schemaPairs, q.1 ≠ "" := by decide
    exact hall q hq
  refine ⟨e.1, q.1, q.2, hN, hq, ?_, rfl, rfl, rfl, rfl, rfl, rfl⟩
  simp only [constMetric, systemDesc]
  rw [BuildFQName_process Namespace q.1 hsys, if_neg hns]

/-- Witness of C14, on `twoNginx` with the namespace "node". -/
theorem C14_emission_shape_witness :
    ("node" : String) ≠ ""
    ∧ ∀ m ∈ (Update "node" twoNginx RangeOrder.reversed (fun _ => RangeOrder.asStored)).emitted,
      ∃ N system s, N ∈ [(1 : Pid), 2].filterMap (procNameOf twoNginx)
        ∧ (system, s) ∈ schemaPairs
        ∧ m.desc.fqName = "node" ++ "_process_" ++ system
        ∧ m.desc.help = "Labeled per process cpu and memory information."
        ∧ m.desc.variableLabels = ["name", "type"]
        ∧ m.desc.constLabels = []
        ∧ m.labelValues = [N, s]
        ∧ List.zip m.desc.variableLabels m.labelValues = [("name", N), ("type", s)]
        ∧ m.valueType = ValueType.GaugeValue :=
  ⟨by decide, C14_emission_shape "node" twoNginx RangeOrder.reversed
    (fun _ => RangeOrder.asStored) [1, 2] rfl (by decide)⟩

/-! ## C15: order of the records of one process name -/

theorem head_of_mem_bucketMetrics (Namespace : String) (sysOrder : RangeOrder)
    (procName : String) (proc : procInfo F) (m : Metric F)
    (hm : m ∈ bucketMetrics Namespace sysOrder procName proc) :
    m.labelValues.head? = some procName := by
  unfold bucketMetrics systemMetrics at hm
  obtain ⟨system, _, hm2⟩ := List.mem_flatMap.1 hm
  obtain ⟨s, _, rfl⟩ := List.mem_map.1 hm2
  rfl

theorem flatMap_ite_keys {β : Type} (l : List String) (hnd : l.Nodup) (n : String)
    (hn : n ∈ l) (G : String → List β) :
    (l.flatMap fun a => if a = n then G a else []) = G n := by
  induction l with
  | nil => simp at hn
  | cons a rest ih =>
    rw [List.nodup_cons] at hnd
    by_cases ha : a = n
    · subst ha
      have hrest : (rest.flatMap fun b => if b = a then G b else []) = [] := by
        rw [List.flatMap_eq_nil_iff]
        intro b hb
        have : ¬ b = a := fun c => hnd.1 (c ▸ hb)
        simp [this]
      simp [hrest]
    · have hr : n ∈ rest := by
        rcases List.mem_cons.1 hn with h | h
        · exact absurd h.symm ha
        · exact h
      simp only [List.flatMap_cons, ha, if_false, List.nil_append]
      exact ih hnd.2 hr

/-- The records of one process name, in the order of emission: the records
of its bucket, system after system in the order of the inner `range`. -/
theorem filter_name_buildMetrics (Namespace : String) (nameOrder : RangeOrder)
    (sysOrder : String → RangeOrder) (procs : GoMap (procInfo F))
    (hnd : (GoMap.keys procs).Nodup) (n : String) (hn : n ∈ GoMap.keys procs) :
    (buildMetrics Namespace nameOrder sysOrder procs).filter
        (fun m => decide (m.labelValues.head? = some n))
      = bucketMetrics Namespace (sysOrder n) n ((GoMap.lookup procs n).getD []) := by
  unfold buildMetrics
  rw [List.filter_flatMap]
  have hf : (fun a => List.filter (fun m : Metric F => decide (m.labelValues.head? = some n))
        (bucketMetrics Namespace (sysOrder a) a ((GoMap.lookup procs a).getD [])))
      = fun a => if a = n then
          bucketMetrics Namespace (sysOrder a) a ((GoMap.lookup procs a).getD []) else [] := by
    funext a
    by_cases ha : a = n
    · simp only [ha, if_true]
      rw [List.filter_eq_self]
      intro m hm
      simp [head_of_mem_bucketMetrics _ _ _ _ m hm]
    · simp only [ha, if_false]
      rw [List.filter_eq_nil_iff]
      intro m hm
      simp [head_of_mem_bucketMetrics _ _ _ _ m hm, ha]
  rw [hf]
  exact flatMap_ite_keys _ ((nameOrder.visit_perm _).nodup_iff.2 hnd) n
    ((nameOrder.visit_perm _).mem_iff.2 hn)
    (fun a => bucketMetrics Namespace (sysOrder a) a ((GoMap.lookup procs a).getD []))

/-- C15, as stated, fails: the `range` over the map `visibleStatNames` may
visit the systems in any order. Two passes over `twoNginx` that differ only
in that order emit the records of "nginx" in different sequences of
(family, label values). -/
theorem C15_system_order_not_fixed :
    (Update "node" twoNginx RangeOrder.asStored (fun _ => RangeOrder.asStored)).emitted.map
        (fun m => (m.desc.fqName, m.labelValues))
      ≠ (Update "node" twoNginx RangeOrder.asStored (fun _ => RangeOrder.reversed)).emitted.map
        (fun m => (m.desc.fqName, m.labelValues)) := by
  decide

/-- C15, amended. For every bucket map and every process name `n` in it, the
records emitted for `n` are, in the order of emission, the records of the
three systems taken in some order, system after system; within a system the
records follow the order of the table (cpu: total, user, system; virtualmem:
peak, size, lock, hwm, rss, swap). -/
theorem C15_record_order (Namespace : String) (nameOrder : RangeOrder)
    (sysOrder : String → RangeOrder) (procs : GoMap (procInfo F))
    (hnd : (GoMap.keys procs).Nodup) (n : String) (proc : procInfo F)
    (hl : GoMap.lookup procs n = some proc) :
    (∃ systems : List String, systems.Perm ["memory", "cpu", "virtualmem"]
      ∧ (buildMetrics Namespace nameOrder sysOrder procs).filter
          (fun m => decide (m.labelValues.head? = some n))
        = systems.flatMap fun system =>
            ((GoMap.lookup visibleStatNames system).getD []).map
              (constMetric Namespace n proc system))
    ∧ GoMap.lookup visibleStatNames "memory" = some ["used"]
    ∧ GoMap.lookup visibleStatNames "cpu" = some ["total", "user", "system"]
    ∧ GoMap.lookup visibleStatNames "virtualmem"
        = some ["peak", "size", "lock", "hwm", "rss", "swap"] := by
  refine ⟨⟨(sysOrder n).visit (GoMap.keys visibleStatNames),
    (sysOrder n).visit_perm _, ?_⟩, rfl, rfl, rfl⟩
  have hn : n ∈ GoMap.keys procs := by
    rw [← GoMap.lookup_isSome_iff, hl]
    rfl
  rw [filter_name_buildMetrics Namespace nameOrder sysOrder procs hnd n hn, hl]
  rfl

/-- Witness of the amended C15: one bucket "nginx", systems visited in the
reverse order of the table. -/
theorem C15_record_order_witness :
    ∃ systems : List String, systems.Perm ["memory", "cpu", "virtualmem"]
      ∧ (buildMetrics "node" RangeOrder.asStored (fun _ => RangeOrder.reversed)
            [("nginx", [("memory.used", ((150 : ℕ) : float64))])]).filter
          (fun m => decide (m.labelValues.head? = some "nginx"))
        = systems.flatMap fun system =>
            ((GoMap.lookup visibleStatNames system).getD []).map
              (constMetric "node" "nginx" [("memory.used", ((150 : ℕ) : float64))] system) :=
  (C15_record_order "node" RangeOrder.asStored (fun _ => RangeOrder.reversed)
    [("nginx", [("memory.used", ((150 : ℕ) : float64))])] (by decide) "nginx"
    [("memory.used", ((150 : ℕ) : float64))] (by decide)).1

/-! ## C17: no duplicate series -/

theorem nodup_labelValues_buildMetrics (Namespace : String) (nameOrder : RangeOrder)
    (sysOrder : String → RangeOrder) (procs : GoMap (procInfo F))
    (hnd : (GoMap.keys procs).Nodup) :
    ((buildMetrics Namespace nameOrder sysOrder procs).map fun m => m.labelValues).Nodup := by
  rw [((buildMetrics_perm Namespace nameOrder sysOrder procs hnd).map _).nodup_iff,
    List.map_flatMap, List.nodup_flatMap]
  constructor
  · intro e _
    simp only [List.map_map]
    have hs : (schemaPairs.map Prod.snd).Nodup := by decide
    have : (List.map ((fun m : Metric F => m.labelValues) ∘
        fun q : String × String => constMetric Namespace e.1 e.2 q.1 q.2) schemaPairs)
        = (schemaPairs.map Prod.snd).map (fun s => [e.1, s]) := by
      simp [List.map_map, Function.comp_def, constMetric]
    rw [this]
    exact hs.map (fun a b h => by simpa using h)
  · have hp : procs.Pairwise (fun a b => a.1 ≠ b.1) := by
      have := hnd
      unfold GoMap.keys at this
      rw [List.Nodup, List.pairwise_map] at this
      exact this
    refine hp.imp ?_
    intro a b hab
    simp only [Function.onFun]
    rw [List.disjoint_left]
    intro x hx hx2
    simp only [List.map_map, List.mem_map, Function.comp_apply, constMetric] at hx hx2
    obtain ⟨q, _, rfl⟩ := hx
    obtain ⟨q2, _, h2⟩ := hx2
    simp only [List.cons.injEq] at h2
    exact hab h2.1.symm

/-- C17. When the listing succeeds, no two emitted records have the same
label values (process name, subsystem), hence no two have the same family
name and label values; the ten subsystem names of the table are pairwise
distinct. -/
theorem C17_no_duplicate_series (Namespace : String) (src : ProcessSource F)
    (nameOrder : RangeOrder) (sysOrder : String → RangeOrder) (pids : List Pid)
    (hp : src.Pids = .ok pids) :
    ((Update Namespace src nameOrder sysOrder).emitted.map
        fun m => (m.desc.fqName, m.labelValues)).Nodup
    ∧ ((Update Namespace src nameOrder sysOrder).emitted.map fun m => m.labelValues).Nodup
    ∧ (schemaPairs.map Prod.snd).Nodup := by
  have h := nodup_labelValues_buildMetrics Namespace nameOrder sysOrder _
    (nodup_keys_aggregated_nil src pids)
  rw [(Update_of_ok Namespace src nameOrder sysOrder pids hp).2]
  refine ⟨?_, h, by decide⟩
  apply List.Nodup.of_map Prod.snd
  rw [List.map_map]
  exact h

/-- Witness of C17, on `twoNginx`. -/
theorem C17_no_duplicate_series_witness :
    ((Update "node" twoNginx RangeOrder.asStored (fun _ => RangeOrder.reversed)).emitted.map
        fun m => m.labelValues).Nodup :=
  (C17_no_duplicate_series "node" twoNginx RangeOrder.asStored (fun _ => RangeOrder.reversed)
    [1, 2] rfl).2.1

/-! ## Presence of keys in the buckets -/

theorem entryAt_getD (procs : GoMap (procInfo F)) (n k : String) :
    (entryAt procs n k).getD 0 = bucketAt procs n k := by
  unfold entryAt bucketAt procInfo.index
  cases GoMap.lookup procs n <;> simp [GoMap.lookup]

theorem hasKey_nil (n k : String) : hasKey ([] : GoMap (procInfo F)) n k = false := by
  simp [hasKey, entryAt, GoMap.lookup]

theorem hasKey_addAt (procs : GoMap (procInfo F)) (procName key : String) (x : F)
    (n k : String) :
    hasKey (addAt procs procName key x) n k
      = (decide (procName = n ∧ key = k) || hasKey procs n k) := by
  unfold hasKey entryAt addAt
  by_cases hn : procName = n
  · subst hn
    by_cases hk : key = k
    · subst hk
      simp [GoMap.lookup_store_same]
    · simp only [GoMap.lookup_store_same, Option.some_bind,
        GoMap.lookup_store_other _ _ _ _ hk, hk, and_false, decide_False, Bool.false_or]
      cases GoMap.lookup procs procName <;> simp [GoMap.lookup]
  · simp [GoMap.lookup_store_other _ _ _ _ hn, hn]

theorem hasKey_ensureBucket (procs : GoMap (procInfo F)) (procName n k : String) :
    hasKey (ensureBucket procs procName) n k = hasKey procs n k := by
  unfold ensureBucket
  split
  · rfl
  · rename_i h
    have hnone : GoMap.lookup procs procName = none := by
      cases hl : GoMap.lookup procs procName with
      | none => rfl
      | some v => simp [hl] at h
    unfold hasKey entryAt
    by_cases hn : procName = n
    · subst hn
      simp [GoMap.lookup_store_same, hnone, GoMap.lookup]
    · simp [GoMap.lookup_store_other _ _ _ _ hn]

theorem hasKey_addMemory (procs : GoMap (procInfo F)) (procName : String)
    (r : Except Error MemoryInfoStat) (n k : String) :
    hasKey (addMemory procs procName r) n k
      = (hasKey procs n k || hasKey (addMemory ([] : GoMap (procInfo F)) procName r) n k) := by
  cases r <;> simp only [addMemory, hasKey_addAt, hasKey_nil] <;>
    generalize hasKey procs n k = b <;> cases b <;> simp

theorem hasKey_addVirtualMem (procs : GoMap (procInfo F)) (procName : String)
    (r : Except Error VirtualMemoryInfoStat) (n k : String) :
    hasKey (addVirtualMem procs procName r) n k
      = (hasKey procs n k || hasKey (addVirtualMem ([] : GoMap (procInfo F)) procName r) n k) := by
  cases r <;> simp only [addVirtualMem, hasKey_addAt, hasKey_nil] <;>
    generalize hasKey procs n k = b <;> cases b <;> simp

theorem hasKey_addCpu (procs : GoMap (procInfo F)) (procName : String)
    (stats : ProcessStats F) (timesStat : TimesStat F) (n k : String) :
    hasKey (addCpu procs procName stats timesStat) n k
      = (hasKey procs n k || hasKey (addCpu ([] : GoMap (procInfo F)) procName stats timesStat) n k) := by
  simp only [addCpu, hasKey_addAt, hasKey_nil]
  generalize hasKey procs n k = b
  cases b <;> simp

theorem hasKey_loopBody_of_name (src : ProcessSource F) (procs : GoMap (procInfo F)) (pid : Pid)
    (procName : String) (h : procNameOf src pid = some procName) (n k : String) :
    hasKey (loopBody src procs pid).1 n k
      = (hasKey procs n k
        || hasKey (addMemory ([] : GoMap (procInfo F)) procName (src.MemoryInfo pid)) n k
        || hasKey (addVirtualMem ([] : GoMap (procInfo F)) procName (src.VirtualMemoryInfo pid)) n k
        || (match src.GetStats pid, src.Times pid with
           | .ok stats, .ok timesStat => hasKey (addCpu ([] : GoMap (procInfo F)) procName stats timesStat) n k
           | _, _ => false)) := by
  rw [loopBody_fst_of_name _ procs _ _ h]
  have hv : hasKey (addVirtualMem (addMemory (ensureBucket procs procName) procName
        (src.MemoryInfo pid)) procName (src.VirtualMemoryInfo pid)) n k
      = (hasKey procs n k || hasKey (addMemory ([] : GoMap (procInfo F)) procName (src.MemoryInfo pid)) n k
        || hasKey (addVirtualMem ([] : GoMap (procInfo F)) procName (src.VirtualMemoryInfo pid)) n k) := by
    rw [hasKey_addVirtualMem, hasKey_addMemory, hasKey_ensureBucket]
  cases src.GetStats pid <;> cases src.Times pid <;> simp only
  · rw [hv, Bool.or_false]
  · rw [hv, Bool.or_false]
  · rw [hv, Bool.or_false]
  · rw [hasKey_addCpu, hv]

theorem hasKey_loopBody (src : ProcessSource F) (procs : GoMap (procInfo F)) (pid : Pid)
    (n k : String) :
    hasKey (loopBody src procs pid).1 n k
      = (hasKey procs n k || hasKey (loopBody src [] pid).1 n k) := by
  cases h : procNameOf src pid with
  | none => simp [loopBody_fst_of_no_name _ _ _ h, hasKey_nil]
  | some procName =>
    rw [hasKey_loopBody_of_name _ procs _ _ h, hasKey_loopBody_of_name _ [] _ _ h,
      hasKey_nil]
    simp [Bool.or_assoc]

theorem hasKey_aggregated (src : ProcessSource F) (procs : GoMap (procInfo F))
    (pids : List Pid) (n k : String) :
    hasKey (aggregated src procs pids) n k
      = (hasKey procs n k || pids.any fun pid => hasKey (loopBody src [] pid).1 n k) := by
  induction pids generalizing procs with
  | nil => simp [aggregated_nil]
  | cons pid rest ih =>
    rw [aggregated_cons, ih, hasKey_loopBody]
    simp [Bool.or_assoc]

/-- The loop writes no key outside the ten keys of the table. -/
theorem mem_schemaKeys_of_hasKey_loopBody (src : ProcessSource F) (pid : Pid) (n k : String)
    (h : hasKey (loopBody src [] pid).1 n k = true) : k ∈ schemaKeys := by
  have hall : ∀ key ∈ ["memory.used", "virtualmem.peak", "virtualmem.size", "virtualmem.lock",
      "virtualmem.hwm", "virtualmem.rss", "virtualmem.swap", "cpu.user", "cpu.system",
      "cpu.total"], key ∈ schemaKeys := by decide
  cases hn : procNameOf src pid with
  | none => simp [loopBody_fst_of_no_name _ _ _ hn, hasKey_nil] at h
  | some nm =>
    rw [hasKey_loopBody_of_name _ _ _ _ hn] at h
    have hk : k ∈ ["memory.used", "virtualmem.peak", "virtualmem.size", "virtualmem.lock",
        "virtualmem.hwm", "virtualmem.rss", "virtualmem.swap", "cpu.user", "cpu.system",
        "cpu.total"] := by
      revert h
      cases src.MemoryInfo pid <;> cases src.VirtualMemoryInfo pid <;>
        cases src.GetStats pid <;> cases src.Times pid <;>
        simp only [addMemory, addVirtualMem, addCpu, hasKey_addAt, hasKey_nil, Bool.or_false,
          Bool.false_or, Bool.or_eq_true, decide_eq_true_eq, List.mem_cons, List.mem_nil_iff,
          or_false, Bool.false_eq_true, false_or, or_false] <;>
        intro h <;> aesop
    exact hall k hk

/-! ## C19: every bucket entry is emitted -/

theorem schemaPairs_key_inj :
    ∀ q ∈ schemaPairs, ∀ q2 ∈ schemaPairs,
      q.1 ++ "." ++ q.2 = q2.1 ++ "." ++ q2.2 → q = q2 := by
  decide

/-- C19. Every key that the loop writes into a bucket is one of the ten keys
`system + "." + subsystem` of the table. So, when the listing succeeds, every
entry of every bucket after the loop belongs to exactly one pair
`(system, s)` of the table, and the series `(system, s, name)` has exactly
one emitted record, whose value is that entry. -/
theorem C19_no_value_dropped (Namespace : String) (src : ProcessSource F)
    (nameOrder : RangeOrder) (sysOrder : String → RangeOrder) (pids : List Pid)
    (hp : src.Pids = .ok pids) :
    (∀ (procs : GoMap (procInfo F)) (pid : Pid) (n k : String),
        hasKey (loopBody src procs pid).1 n k = true →
        hasKey procs n k = true ∨ k ∈ schemaKeys)
    ∧ (∀ n k, hasKey (aggregated src [] pids) n k = true → k ∈ schemaKeys)
    ∧ (∀ n k v, entryAt (aggregated src [] pids) n k = some v →
        ∃ system s, (system, s) ∈ schemaPairs ∧ k = system ++ "." ++ s
          ∧ (∀ system2 s2, (system2, s2) ∈ schemaPairs → k = system2 ++ "." ++ s2 →
              system2 = system ∧ s2 = s)
          ∧ ∃ m, (Update Namespace src nameOrder sysOrder).emitted.filter
                (fun m => decide (Metric.isSeries Namespace m system s n)) = [m]
              ∧ m.value = v) := by
  have hkeys : ∀ n k, hasKey (aggregated src [] pids) n k = true → k ∈ schemaKeys := by
    intro n k h
    rw [hasKey_aggregated, hasKey_nil, Bool.false_or, List.any_eq_true] at h
    obtain ⟨pid, _, hx⟩ := h
    exact mem_schemaKeys_of_hasKey_loopBody src pid n k hx
  refine ⟨?_, hkeys, ?_⟩
  · intro procs pid n k h
    rw [hasKey_loopBody, Bool.or_eq_true] at h
    rcases h with h | h
    · exact Or.inl h
    · exact Or.inr (mem_schemaKeys_of_hasKey_loopBody src pid n k h)
  · intro n k v hv
    have hk : k ∈ schemaKeys := hkeys n k (by simp [hasKey, hv])
    obtain ⟨q, hq, hqk⟩ := List.mem_map.1 hk
    have hN : n ∈ pids.filterMap (procNameOf src) := by
      rw [← mem_keys_aggregated_nil, ← GoMap.lookup_isSome_iff]
      unfold entryAt at hv
      cases hl : GoMap.lookup (aggregated src [] pids) n with
      | none => simp [hl] at hv
      | some info => rfl
    obtain ⟨m, hm, hval⟩ := emitted_series Namespace src nameOrder sysOrder pids hp n hN
      q.1 q.2 hq
    refine ⟨q.1, q.2, hq, hqk.symm, ?_, m, hm, ?_⟩
    · intro system2 s2 hq2 hk2
      have := schemaPairs_key_inj (system2, s2) hq2 q hq (by rw [← hk2, hqk])
      rw [← this]
      exact ⟨rfl, rfl⟩
    · rw [hval, hqk, ← entryAt_getD, hv]
      rfl

/-- Witness of C19, on `twoNginx`: every key present in a bucket after the
loop is one of the ten keys of the table. -/
theorem C19_no_value_dropped_witness :
    twoNginx.Pids = .ok [1, 2]
    ∧ ∀ n k, hasKey (aggregated twoNginx [] [1, 2]) n k = true → k ∈ schemaKeys :=
  ⟨rfl, (C19_no_value_dropped "node" twoNginx RangeOrder.asStored
    (fun _ => RangeOrder.asStored) [1, 2] rfl).2.1⟩

end General

/-! ## C18: order of the pids -/

section Exact

variable {F : Type} [AddCommMonoid F] [NatCast F]

theorem option_eq_of_isSome_getD (a b : Option F) (h1 : a.isSome = b.isSome)
    (h2 : a.getD 0 = b.getD 0) : a = b := by
  cases a <;> cases b <;> simp_all

theorem sameMap_of (a b : GoMap (procInfo F))
    (hk : ∀ n, n ∈ GoMap.keys a ↔ n ∈ GoMap.keys b)
    (hh : ∀ n k, hasKey a n k = hasKey b n k)
    (hv : ∀ n k, bucketAt a n k = bucketAt b n k) : sameMap a b := by
  constructor
  · intro n
    rw [Bool.eq_iff_iff, GoMap.lookup_isSome_iff, GoMap.lookup_isSome_iff]
    exact hk n
  · intro n k
    apply option_eq_of_isSome_getD
    · exact hh n k
    · rw [entryAt_getD, entryAt_getD]
      exact hv n k

/-- For exact numbers the value of a cell after the loop is the starting
value plus the sum of the amounts added by the pids. -/
theorem bucketAt_aggregated_sum (src : ProcessSource F) (procs : GoMap (procInfo F))
    (pids : List Pid) (n k : String) :
    bucketAt (aggregated src procs pids) n k
      = bucketAt procs n k
        + (pids.map fun pid => bucketAt (loopBody src [] pid).1 n k).sum := by
  rw [bucketAt_aggregated]
  generalize bucketAt procs n k = a
  induction pids generalizing a with
  | nil => simp
  | cons pid rest ih =>
    rw [List.foldl_cons, ih, List.map_cons, List.sum_cons, add_assoc]

theorem sameMap_aggregated_of_perm (src : ProcessSource F) (pids pids2 : List Pid)
    (h : pids.Perm pids2) : sameMap (aggregated src [] pids) (aggregated src [] pids2) := by
  apply sameMap_of
  · intro n
    rw [mem_keys_aggregated, mem_keys_aggregated]
    constructor
    · rintro (h1 | ⟨pid, hp, hn⟩)
      · exact Or.inl h1
      · exact Or.inr ⟨pid, h.mem_iff.1 hp, hn⟩
    · rintro (h1 | ⟨pid, hp, hn⟩)
      · exact Or.inl h1
      · exact Or.inr ⟨pid, h.mem_iff.2 hp, hn⟩
  · intro n k
    rw [hasKey_aggregated, hasKey_aggregated, hasKey_nil, Bool.false_or, Bool.false_or,
      Bool.eq_iff_iff, List.any_eq_true, List.any_eq_true]
    constructor
    · rintro ⟨pid, hp, hx⟩
      exact ⟨pid, h.mem_iff.1 hp, hx⟩
    · rintro ⟨pid, hp, hx⟩
      exact ⟨pid, h.mem_iff.2 hp, hx⟩
  · intro n k
    rw [bucketAt_aggregated_sum, bucketAt_aggregated_sum]
    congr 1
    exact (h.map _).sum_eq

theorem aggregated_append_keywise (src : ProcessSource F) (pids pids2 : List Pid)
    (n k : String) :
    bucketAt (aggregated src [] (pids ++ pids2)) n k
        = bucketAt (aggregated src [] pids) n k + bucketAt (aggregated src [] pids2) n k
    ∧ (GoMap.lookup (aggregated src [] (pids ++ pids2)) n).isSome
        = ((GoMap.lookup (aggregated src [] pids) n).isSome
          || (GoMap.lookup (aggregated src [] pids2) n).isSome)
    ∧ hasKey (aggregated src [] (pids ++ pids2)) n k
        = (hasKey (aggregated src [] pids) n k || hasKey (aggregated src [] pids2) n k) := by
  refine ⟨?_, ?_, ?_⟩
  · simp only [bucketAt_aggregated_sum, bucketAt_nil, zero_add, List.map_append,
      List.sum_append]
  · rw [Bool.eq_iff_iff, Bool.or_eq_true, GoMap.lookup_isSome_iff, GoMap.lookup_isSome_iff,
      GoMap.lookup_isSome_iff, mem_keys_aggregated_nil, mem_keys_aggregated_nil,
      mem_keys_aggregated_nil, List.filterMap_append, List.mem_append]
  · simp only [hasKey_aggregated, hasKey_nil, Bool.false_or, List.any_append]

/-- C18. With exact values, that is for every type of values whose addition
is commutative and associative, the bucket map after the loop does not depend
on the order of the pids: for every rearrangement of the pid list the same
buckets exist, with the same keys and the same values. The bucket map of a
concatenation of two pid lists is the key-wise sum of the bucket maps of the
two lists: its buckets and keys are those of either list, and its values are
the sums of the values. -/
theorem C18_order_independence (src : ProcessSource F) (pids : List Pid) :
    (∀ pids2, pids.Perm pids2 →
      sameMap (aggregated src [] pids) (aggregated src [] pids2))
    ∧ (∀ pids2 n k,
        bucketAt (aggregated src [] (pids ++ pids2)) n k
          = bucketAt (aggregated src [] pids) n k + bucketAt (aggregated src [] pids2) n k
        ∧ (GoMap.lookup (aggregated src [] (pids ++ pids2)) n).isSome
          = ((GoMap.lookup (aggregated src [] pids) n).isSome
            || (GoMap.lookup (aggregated src [] pids2) n).isSome)
        ∧ hasKey (aggregated src [] (pids ++ pids2)) n k
          = (hasKey (aggregated src [] pids) n k
            || hasKey (aggregated src [] pids2) n k)) :=
  ⟨fun pids2 h => sameMap_aggregated_of_perm src pids pids2 h,
    fun pids2 n k => aggregated_append_keywise src pids pids2 n k⟩

/-- Witness of C18, over the rationals: the two pids of `twoNginxExact` in
either order. -/
theorem C18_order_independence_witness :
    sameMap (aggregated twoNginxExact [] [1, 2]) (aggregated twoNginxExact [] [2, 1]) :=
  (C18_order_independence twoNginxExact [1, 2]).1 [2, 1] (List.Perm.swap 2 1 [])

end Exact

end Collector
